import Mathlib

/-!
# The pass driver of `taichi/transforms/compile_to_offloads.cpp`

The file embeds the three driver functions `compile_to_offloads`,
`offload_to_executable` and `compile_to_executable` together with the tracer
`make_pass_printer`.  The passes themselves, the verification oracle and the
target predicates are external to the translation unit; they are taken as a
parameter (`World`).  Every call the driver makes is recorded, in order, in a
trace, and each pass and each `analysis::verify` may fail, which aborts the
run, as does a violated `TI_ASSERT`.  The profiler scope `TI_AUTO_PROF` has no
effect on the tree or on control flow and is left out.

Definitions come first: the driver, the straight-line plans used to reason
about it, and the notions the properties are stated with.  The theorems
follow; those named C1 to C10 in their comments are the properties of the
specification.
-/

set_option linter.unusedSectionVars false

namespace Taichi

/-- Contents of `std::unordered_map<OffloadedStmt *, std::unordered_map<const
SNode *, GlobalPtrStmt *>>`, pointers being numbers.  The default-constructed
map is `[]`. -/
abbrev BitStructMap := List (Nat × List (Nat × Nat))

/-- The fields of `CompileConfig` that the driver reads. -/
structure CompileConfig (Arch : Type) where
  arch : Arch
  max_vector_width : Int
  serial_schedule : Bool
  check_out_of_bound : Bool
  cfg_optimization : Bool
  detect_read_only : Bool
  demote_dense_struct_fors : Bool
  quant_opt_atomic_demotion : Bool

/-- The fields of `Kernel` that the driver reads. -/
structure Kernel where
  name : String
  is_evaluator : Bool

/-- The root handle `IRNode *ir`: what `ir->get_kernel()` and
`ir->get_config()` return.  Neither is written by the driver; the statements
below the root are the mutable part and live in `PipeState.tree`. -/
structure IRNode (Arch : Type) where
  get_kernel : Kernel
  get_config : CompileConfig Arch

/-- The functions of namespace `irpass` (outside `irpass::analysis` and the
tracer's `re_id` and `print`) that the driver calls on the tree, with the
arguments passed besides `ir`. -/
inductive Pass
  | reverse_segments
  | lower_ast
  | type_check
  | demote_operations
  | offload
  | loop_vectorize
  | vector_split (max_vector_width : Int) (serial_schedule : Bool)
  | bit_loop_vectorize
  | full_simplify (after_lower_access : Bool)
  | demote_atomics
  | auto_diff (use_stack : Bool)
  | check_out_of_bound
  | flag_access
  | cfg_optimization (after_lower_access : Bool)
  | detect_read_only
  | demote_dense_struct_fors
  | make_thread_local
  | make_block_local
  | remove_range_assumption
  | remove_loop_unique
  | lower_access (lower_atomic : Bool)
  | die
  | optimize_bit_struct_stores (uniquely_accessed_bit_structs : BitStructMap)
  deriving DecidableEq, Repr

/-- One call made by the driver or by the tracer. -/
inductive Event
  | pass (p : Pass)
  | verify
  | gather_uniquely_accessed_bit_structs (result : BitStructMap)
  | info (msg : String)
  | flush
  | re_id
  | print
  deriving DecidableEq, Repr

/-- Why a run was aborted. -/
inductive Failure
  | pass_failed (p : Pass)
  | verify_failed
  | assertion_failed
  deriving DecidableEq, Repr

/-- The external collaborators of the driver: the target predicates of
`arch.h` and `extension.h`, the passes, the oracle, the bit-struct analysis
and the tracer's renumbering.  `apply p t = none` means that pass `p` raises
on tree `t`; `verify t = false` means that the oracle rejects `t`. -/
structure World (Arch T : Type) where
  cuda : Arch
  arch_is_cpu : Arch → Bool
  quant_supported : Arch → Bool
  apply : Pass → T → Option T
  verify : T → Bool
  gather : T → BitStructMap
  re_id : T → T

/-- The mutable state of a run: the tree and the calls made so far. -/
structure PipeState (T : Type) where
  tree : T
  trace : List Event

/-- A driver computation: it ends normally with a value or is aborted with a
failure; the state reached is kept in both cases. -/
def Pipe (T α : Type) : Type := PipeState T → Except Failure α × PipeState T

/-- Sequencing: nothing runs after a failure. -/
def Pipe.bind {T α β : Type} (m : Pipe T α) (f : α → Pipe T β) : Pipe T β :=
  fun s =>
    match m s with
    | (Except.ok a, s1) => f a s1
    | (Except.error e, s1) => (Except.error e, s1)

instance {T : Type} : Monad (Pipe T) where
  pure a := fun s => (Except.ok a, s)
  bind := Pipe.bind

/-- Sequencing obeys the monad laws. -/
instance {T : Type} : LawfulMonad (Pipe T) :=
  LawfulMonad.mk' (Pipe T)
    (by
      intro α x
      funext s
      show Pipe.bind x (fun a => pure (id a)) s = x s
      unfold Pipe.bind
      rcases x s with ⟨r, s1⟩
      cases r <;> rfl)
    (by intro α β x f; rfl)
    (by
      intro α β γ x f g
      funext s
      show Pipe.bind (Pipe.bind x f) g s = Pipe.bind x (fun a => Pipe.bind (f a) g) s
      unfold Pipe.bind
      rcases x s with ⟨r, s1⟩
      cases r <;> rfl)

section Driver

variable {Arch T : Type} [DecidableEq Arch]

/-- A call `irpass::p(ir, args)`. -/
def call (w : World Arch T) (p : Pass) : Pipe T Unit :=
  fun s =>
    match w.apply p s.tree with
    | some t => (Except.ok (), ⟨t, s.trace ++ [Event.pass p]⟩)
    | none => (Except.error (Failure.pass_failed p), ⟨s.tree, s.trace ++ [Event.pass p]⟩)

/-- A call `irpass::analysis::verify(ir)`. -/
def verify (w : World Arch T) : Pipe T Unit :=
  fun s =>
    if w.verify s.tree then (Except.ok (), ⟨s.tree, s.trace ++ [Event.verify]⟩)
    else (Except.error Failure.verify_failed, ⟨s.tree, s.trace ++ [Event.verify]⟩)

/-- A call `irpass::analysis::gather_uniquely_accessed_bit_structs(ir)`. -/
def gather_uniquely_accessed_bit_structs (w : World Arch T) : Pipe T BitStructMap :=
  fun s =>
    (Except.ok (w.gather s.tree),
      ⟨s.tree, s.trace ++ [Event.gather_uniquely_accessed_bit_structs (w.gather s.tree)]⟩)

/-- The check `TI_ASSERT(b)`. -/
def TI_ASSERT (b : Bool) : Pipe T Unit :=
  fun s => if b then (Except.ok (), s) else (Except.error Failure.assertion_failed, s)

/-- The calls made by the closure of `make_pass_printer` when verbose. -/
def printer_events (kn pass : String) : List Event :=
  [Event.info ("[" ++ kn ++ "] " ++ pass ++ ":"), Event.flush, Event.re_id, Event.print,
    Event.flush]

/-- The tracer `make_pass_printer(verbose, ir)`. -/
def make_pass_printer (w : World Arch T) (verbose : Bool) (ir : IRNode Arch) :
    String → Pipe T Unit :=
  if !verbose then
    fun _ => pure ()
  else
    fun pass s =>
      (Except.ok (), ⟨w.re_id s.tree, s.trace ++ printer_events ir.get_kernel.name pass⟩)

/-- The function `compile_to_offloads`.  The early `return` of the evaluator
branch is the `else` around the rest of the body. -/
def compile_to_offloads (w : World Arch T) (ir : IRNode Arch) (config : CompileConfig Arch)
    (verbose vectorize grad ad_use_stack : Bool) : Pipe T Unit := do
  let print := make_pass_printer w verbose ir
  print "Initial IR"
  if grad then
    call w Pass.reverse_segments
    print "Segment reversed (for autodiff)"
  call w Pass.lower_ast
  print "Lowered"
  call w Pass.type_check
  print "Typechecked"
  verify w
  if ir.get_kernel.is_evaluator then
    TI_ASSERT (!grad)
    call w Pass.demote_operations
    print "Operations demoted"
    call w Pass.offload
    print "Offloaded"
    verify w
  else
    if vectorize then
      call w Pass.loop_vectorize
      print "Loop Vectorized"
      verify w
      call w (Pass.vector_split config.max_vector_width config.serial_schedule)
      print "Loop Split"
      verify w
    if w.arch_is_cpu config.arch || config.arch == w.cuda then
      call w Pass.bit_loop_vectorize
      call w Pass.type_check
      print "Bit Loop Vectorized"
      verify w
    call w (Pass.full_simplify false)
    print "Simplified I"
    verify w
    if grad then
      call w Pass.demote_atomics
      call w (Pass.full_simplify false)
      call w (Pass.auto_diff ad_use_stack)
      call w (Pass.full_simplify false)
      print "Gradient"
      verify w
    if config.check_out_of_bound then
      call w Pass.check_out_of_bound
      print "Bound checked"
      verify w
    call w Pass.flag_access
    print "Access flagged I"
    verify w
    call w (Pass.full_simplify false)
    print "Simplified II"
    verify w
    call w Pass.offload
    print "Offloaded"
    verify w
    if config.cfg_optimization then
      call w (Pass.cfg_optimization false)
      print "Optimized by CFG"
      verify w
    call w Pass.flag_access
    print "Access flagged II"
    call w (Pass.full_simplify false)
    print "Simplified III"
    verify w

/-- The function `offload_to_executable`. -/
def offload_to_executable (w : World Arch T) (ir : IRNode Arch) (config : CompileConfig Arch)
    (verbose lower_global_access make_thread_local make_block_local : Bool) : Pipe T Unit := do
  let print := make_pass_printer w verbose ir
  print "Start offload_to_executable"
  verify w
  if config.detect_read_only then
    call w Pass.detect_read_only
    print "Detect read-only accesses"
  call w Pass.demote_atomics
  print "Atomics demoted I"
  verify w
  if config.demote_dense_struct_fors then
    call w Pass.demote_dense_struct_fors
    call w Pass.type_check
    print "Dense struct-for demoted"
    verify w
  if make_thread_local then
    call w Pass.make_thread_local
    print "Make thread local"
  if make_block_local then
    call w Pass.make_block_local
    print "Make block local"
  call w Pass.demote_atomics
  print "Atomics demoted II"
  verify w
  let uniquely_accessed_bit_structs ←
    if w.quant_supported config.arch && ir.get_config.quant_opt_atomic_demotion then
      gather_uniquely_accessed_bit_structs w
    else
      pure []
  call w Pass.remove_range_assumption
  print "Remove range assumption"
  call w Pass.remove_loop_unique
  print "Remove loop_unique"
  verify w
  if lower_global_access then
    call w (Pass.lower_access true)
    print "Access lowered"
    verify w
    call w Pass.die
    print "DIE"
    verify w
    call w Pass.flag_access
    print "Access flagged III"
    verify w
  call w Pass.demote_operations
  print "Operations demoted"
  call w (Pass.full_simplify lower_global_access)
  print "Simplified IV"
  if w.quant_supported config.arch then
    call w (Pass.optimize_bit_struct_stores uniquely_accessed_bit_structs)
    print "Bit struct stores optimized"
  call w Pass.type_check
  verify w

/-- The function `compile_to_executable`. -/
def compile_to_executable (w : World Arch T) (ir : IRNode Arch) (config : CompileConfig Arch)
    (vectorize grad ad_use_stack verbose lower_global_access make_thread_local
      make_block_local : Bool) : Pipe T Unit := do
  compile_to_offloads w ir config verbose vectorize grad ad_use_stack
  offload_to_executable w ir config verbose lower_global_access make_thread_local
    make_block_local

end Driver

/-! ## Straight-line plans

For fixed flags each driver body is a straight line of calls.  `exec` runs such
a line; the driver functions are shown below to be `exec` of the plans
`stage1_plan` and `stage2_plan`, which turns questions about the trace of a
run into questions about lists. -/

/-- One statement of a straight-line driver body. -/
inductive Instr
  | pass (p : Pass)
  | verify
  | gather (result : BitStructMap)
  | print (label : String)
  | assert (b : Bool)
  deriving DecidableEq, Repr

section Plans

variable {Arch T : Type} [DecidableEq Arch]

/-- Running one statement. -/
def exec_instr (w : World Arch T) (verbose : Bool) (ir : IRNode Arch) : Instr → Pipe T Unit
  | Instr.pass p => call w p
  | Instr.verify => verify w
  | Instr.gather m =>
      fun s => (Except.ok (), ⟨s.tree, s.trace ++ [Event.gather_uniquely_accessed_bit_structs m]⟩)
  | Instr.print label => make_pass_printer w verbose ir label
  | Instr.assert b => TI_ASSERT b

/-- Running a line of statements, stopping at the first failure. -/
def exec (w : World Arch T) (verbose : Bool) (ir : IRNode Arch) : List Instr → Pipe T Unit
  | [] => pure ()
  | [i] => exec_instr w verbose ir i
  | i :: rest => exec_instr w verbose ir i >>= fun _ => exec w verbose ir rest

/-- Running a line of statements and then `k`. -/
def exec_then {α : Type} (w : World Arch T) (verbose : Bool) (ir : IRNode Arch) :
    List Instr → Pipe T α → Pipe T α
  | [], k => k
  | i :: rest, k => exec_instr w verbose ir i >>= fun _ => exec_then w verbose ir rest k

/-- The body of `compile_to_offloads` for given flags; `bit_gate` stands for
`arch_is_cpu(config.arch) || config.arch == Arch::cuda`. -/
def stage1_plan (is_evaluator bit_gate : Bool) (config : CompileConfig Arch)
    (vectorize grad ad_use_stack : Bool) : List Instr :=
  [Instr.print "Initial IR"] ++
  (if grad then [Instr.pass Pass.reverse_segments, Instr.print "Segment reversed (for autodiff)"]
    else []) ++
  [Instr.pass Pass.lower_ast, Instr.print "Lowered", Instr.pass Pass.type_check,
    Instr.print "Typechecked", Instr.verify] ++
  (if is_evaluator then
    [Instr.assert (!grad), Instr.pass Pass.demote_operations, Instr.print "Operations demoted",
      Instr.pass Pass.offload, Instr.print "Offloaded", Instr.verify]
  else
    (if vectorize then
      [Instr.pass Pass.loop_vectorize, Instr.print "Loop Vectorized", Instr.verify,
        Instr.pass (Pass.vector_split config.max_vector_width config.serial_schedule),
        Instr.print "Loop Split", Instr.verify]
      else []) ++
    (if bit_gate then
      [Instr.pass Pass.bit_loop_vectorize, Instr.pass Pass.type_check,
        Instr.print "Bit Loop Vectorized", Instr.verify]
      else []) ++
    [Instr.pass (Pass.full_simplify false), Instr.print "Simplified I", Instr.verify] ++
    (if grad then
      [Instr.pass Pass.demote_atomics, Instr.pass (Pass.full_simplify false),
        Instr.pass (Pass.auto_diff ad_use_stack), Instr.pass (Pass.full_simplify false),
        Instr.print "Gradient", Instr.verify]
      else []) ++
    (if config.check_out_of_bound then
      [Instr.pass Pass.check_out_of_bound, Instr.print "Bound checked", Instr.verify]
      else []) ++
    [Instr.pass Pass.flag_access, Instr.print "Access flagged I", Instr.verify,
      Instr.pass (Pass.full_simplify false), Instr.print "Simplified II", Instr.verify,
      Instr.pass Pass.offload, Instr.print "Offloaded", Instr.verify] ++
    (if config.cfg_optimization then
      [Instr.pass (Pass.cfg_optimization false), Instr.print "Optimized by CFG", Instr.verify]
      else []) ++
    [Instr.pass Pass.flag_access, Instr.print "Access flagged II",
      Instr.pass (Pass.full_simplify false), Instr.print "Simplified III", Instr.verify])

/-- The body of `offload_to_executable` up to the declaration of
`uniquely_accessed_bit_structs`. -/
def stage2_head (config : CompileConfig Arch) (make_thread_local make_block_local : Bool) :
    List Instr :=
  [Instr.print "Start offload_to_executable", Instr.verify] ++
  (if config.detect_read_only then
    [Instr.pass Pass.detect_read_only, Instr.print "Detect read-only accesses"] else []) ++
  [Instr.pass Pass.demote_atomics, Instr.print "Atomics demoted I", Instr.verify] ++
  (if config.demote_dense_struct_fors then
    [Instr.pass Pass.demote_dense_struct_fors, Instr.pass Pass.type_check,
      Instr.print "Dense struct-for demoted", Instr.verify]
    else []) ++
  (if make_thread_local then
    [Instr.pass Pass.make_thread_local, Instr.print "Make thread local"] else []) ++
  (if make_block_local then
    [Instr.pass Pass.make_block_local, Instr.print "Make block local"] else []) ++
  [Instr.pass Pass.demote_atomics, Instr.print "Atomics demoted II", Instr.verify]

/-- The body of `offload_to_executable` after `uniquely_accessed_bit_structs`
has received the value `m`. -/
def stage2_tail (quant lower_global_access : Bool) (m : BitStructMap) : List Instr :=
  [Instr.pass Pass.remove_range_assumption, Instr.print "Remove range assumption",
    Instr.pass Pass.remove_loop_unique, Instr.print "Remove loop_unique", Instr.verify] ++
  (if lower_global_access then
    [Instr.pass (Pass.lower_access true), Instr.print "Access lowered", Instr.verify,
      Instr.pass Pass.die, Instr.print "DIE", Instr.verify,
      Instr.pass Pass.flag_access, Instr.print "Access flagged III", Instr.verify]
    else []) ++
  [Instr.pass Pass.demote_operations, Instr.print "Operations demoted",
    Instr.pass (Pass.full_simplify lower_global_access), Instr.print "Simplified IV"] ++
  (if quant then
    [Instr.pass (Pass.optimize_bit_struct_stores m), Instr.print "Bit struct stores optimized"]
    else []) ++
  [Instr.pass Pass.type_check, Instr.verify]

/-- The body of `offload_to_executable` for given flags, `m` being what the
bit-struct analysis returns when it is called (`quant_opt` holds). -/
def stage2_plan (quant quant_opt : Bool) (config : CompileConfig Arch)
    (lower_global_access make_thread_local make_block_local : Bool) (m : BitStructMap) :
    List Instr :=
  stage2_head config make_thread_local make_block_local ++
  (if quant && quant_opt then [Instr.gather m] else []) ++
  stage2_tail quant lower_global_access (if quant && quant_opt then m else [])

/-- The value that `uniquely_accessed_bit_structs` holds after its
initialisation in the run of `offload_to_executable` from state `s`. -/
def stage2_map (w : World Arch T) (ir : IRNode Arch) (config : CompileConfig Arch)
    (verbose make_thread_local make_block_local : Bool) (s : PipeState T) : BitStructMap :=
  w.gather (exec w verbose ir (stage2_head config make_thread_local make_block_local) s).2.tree

/-- The calls that a statement makes when it runs. -/
def Instr.events (verbose : Bool) (ir : IRNode Arch) : Instr → List Event
  | Instr.pass p => [Event.pass p]
  | Instr.verify => [Event.verify]
  | Instr.gather m => [Event.gather_uniquely_accessed_bit_structs m]
  | Instr.print label => if verbose then printer_events ir.get_kernel.name label else []
  | Instr.assert _ => []

/-- The calls that a line of statements makes when all of it runs. -/
def nominal (verbose : Bool) (ir : IRNode Arch) : List Instr → List Event
  | [] => []
  | i :: rest => i.events verbose ir ++ nominal verbose ir rest

/-- A statement that is not a violated assertion. -/
def Instr.holds : Instr → Bool
  | Instr.assert false => false
  | _ => true

/-- The effect of one recorded call on the tree; `none` when the call fails. -/
def replay_event (w : World Arch T) : Event → T → Option T
  | Event.pass p, t => w.apply p t
  | Event.verify, t => if w.verify t then some t else none
  | Event.re_id, t => some (w.re_id t)
  | _, t => some t

/-- The effect of a sequence of recorded calls on the tree; `none` when one of
them fails. -/
def replay (w : World Arch T) : List Event → T → Option T
  | [], t => some t
  | e :: rest, t =>
    match replay_event w e t with
    | some t1 => replay w rest t1
    | none => none

/-- Statement `i` fails on tree `t` with failure `f`. -/
def Fails (w : World Arch T) (t : T) : Instr → Failure → Prop
  | Instr.pass p, Failure.pass_failed q => q = p ∧ w.apply p t = none
  | Instr.verify, Failure.verify_failed => w.verify t = false
  | Instr.assert b, Failure.assertion_failed => b = false
  | _, _ => False

/-- The calls of the tracer. -/
def Event.is_tracer : Event → Bool
  | Event.info _ => true
  | Event.flush => true
  | Event.re_id => true
  | Event.print => true
  | _ => false

/-- The calls of the driver itself (passes, oracle, bit-struct analysis), in
order. -/
def calls (l : List Event) : List Event :=
  l.filter fun e => !e.is_tracer

/-- The passes invoked, in order, with their arguments. -/
def passes : List Event → List Pass
  | [] => []
  | Event.pass p :: rest => p :: passes rest
  | _ :: rest => passes rest

/-- The driver calls that a statement makes. -/
def Instr.calls : Instr → List Event
  | Instr.pass p => [Event.pass p]
  | Instr.verify => [Event.verify]
  | Instr.gather m => [Event.gather_uniquely_accessed_bit_structs m]
  | _ => []

/-- The driver calls that a line of statements makes when all of it runs. -/
def plan_calls : List Instr → List Event
  | [] => []
  | i :: rest => i.calls ++ plan_calls rest

/-- A failure of a pass or of the oracle, as opposed to a violated assertion
of the driver. -/
def Failure.is_step : Failure → Bool
  | Failure.assertion_failed => false
  | _ => true

/-- No pass and no `analysis::verify` failed in a run with this result. -/
def no_step_failure {α : Type} : Except Failure α → Bool
  | Except.error f => !f.is_step
  | Except.ok _ => true

/-- A world for examples: the tree is the number of passes applied so far,
every pass and every oracle call succeeds, the analysis returns a one-entry
map, CUDA is architecture `0` and supports quantized storage, architecture `1`
is a CPU. -/
def demo_world : World Nat Nat where
  cuda := 0
  arch_is_cpu := fun a => a == 1
  quant_supported := fun a => a == 0
  apply := fun _ t => some (t + 1)
  verify := fun _ => true
  gather := fun t => [(t, [(0, 0)])]
  re_id := fun t => t

/-- A configuration for examples: a CUDA target, every toggle off. -/
def demo_config : CompileConfig Nat where
  arch := 0
  max_vector_width := 4
  serial_schedule := false
  check_out_of_bound := false
  cfg_optimization := false
  detect_read_only := false
  demote_dense_struct_fors := false
  quant_opt_atomic_demotion := false

/-- A root handle for examples. -/
def demo_ir (is_evaluator : Bool) : IRNode Nat where
  get_kernel := ⟨"k", is_evaluator⟩
  get_config := demo_config

/-- Scanning a trace with the number `cur` of passes invoked since the last
oracle call: that number never exceeds `n`. -/
def within_budget (n : Nat) : Nat → List Event → Bool
  | _, [] => true
  | cur, Event.pass _ :: rest => Nat.ble (cur + 1) n && within_budget n (cur + 1) rest
  | _, Event.verify :: rest => within_budget n 0 rest
  | cur, _ :: rest => within_budget n cur rest

/-- Every stretch of the trace without an oracle call holds at most `n` pass
invocations.  With `n = 1`: a pass is always followed by `analysis::verify`
before the next pass. -/
def Checkpointed_within (n : Nat) (l : List Event) : Prop :=
  ∀ pre mid post, l = pre ++ mid ++ post → Event.verify ∉ mid → (passes mid).length ≤ n

/-- The passes that the claim on the evaluator shortcut lists as skipped. -/
def evaluator_skipped : Pass → Bool
  | Pass.loop_vectorize => true
  | Pass.vector_split _ _ => true
  | Pass.bit_loop_vectorize => true
  | Pass.full_simplify _ => true
  | Pass.demote_atomics => true
  | Pass.auto_diff _ => true
  | Pass.check_out_of_bound => true
  | Pass.flag_access => true
  | Pass.cfg_optimization _ => true
  | _ => false

/-- The reference list of Stage 1 for a kernel that is not an evaluator, as the
specification words it; `bit_gate` stands for "the target is a CPU or CUDA". -/
def stage1_reference {Arch : Type} (bit_gate : Bool) (config : CompileConfig Arch)
    (vectorize grad ad_use_stack : Bool) : List Pass :=
  (if grad then [Pass.reverse_segments] else []) ++
  [Pass.lower_ast, Pass.type_check] ++
  (if vectorize then
    [Pass.loop_vectorize, Pass.vector_split config.max_vector_width config.serial_schedule]
    else []) ++
  (if bit_gate then [Pass.bit_loop_vectorize, Pass.type_check] else []) ++
  [Pass.full_simplify false] ++
  (if grad then
    [Pass.demote_atomics, Pass.full_simplify false, Pass.auto_diff ad_use_stack,
      Pass.full_simplify false]
    else []) ++
  (if config.check_out_of_bound then [Pass.check_out_of_bound] else []) ++
  [Pass.flag_access, Pass.full_simplify false, Pass.offload] ++
  (if config.cfg_optimization then [Pass.cfg_optimization false] else []) ++
  [Pass.flag_access, Pass.full_simplify false]

/-- The passes that belong to gradient computation. -/
def gradient_only : Pass → Bool
  | Pass.reverse_segments => true
  | Pass.demote_atomics => true
  | Pass.auto_diff _ => true
  | _ => false

/-- An invocation of `auto_diff`, whatever its argument. -/
def is_auto_diff : Pass → Bool
  | Pass.auto_diff _ => true
  | _ => false

/-- The passes of the reference list of Stage 1 with `grad = true` that come
before `auto_diff`. -/
def stage1_before_auto_diff {Arch : Type} (bit_gate : Bool) (config : CompileConfig Arch)
    (vectorize : Bool) : List Pass :=
  [Pass.reverse_segments, Pass.lower_ast, Pass.type_check] ++
  (if vectorize then
    [Pass.loop_vectorize, Pass.vector_split config.max_vector_width config.serial_schedule]
    else []) ++
  (if bit_gate then [Pass.bit_loop_vectorize, Pass.type_check] else []) ++
  [Pass.full_simplify false, Pass.demote_atomics, Pass.full_simplify false]

/-- The passes of the reference list of Stage 1 with `grad = true` that come
after `auto_diff`. -/
def stage1_after_auto_diff {Arch : Type} (config : CompileConfig Arch) : List Pass :=
  [Pass.full_simplify false] ++
  (if config.check_out_of_bound then [Pass.check_out_of_bound] else []) ++
  [Pass.flag_access, Pass.full_simplify false, Pass.offload] ++
  (if config.cfg_optimization then [Pass.cfg_optimization false] else []) ++
  [Pass.flag_access, Pass.full_simplify false]

/-- The two vectorization passes gated by `vectorize`. -/
def is_vectorize : Pass → Bool
  | Pass.loop_vectorize => true
  | Pass.vector_split _ _ => true
  | _ => false

/-- The reference sequence of Stage 2, as the specification words it: the
passes, the oracle calls and the bit-struct analysis, `m` being the map that
the analysis returns. -/
def stage2_reference {Arch : Type} (quant quant_opt : Bool) (config : CompileConfig Arch)
    (lower_global_access make_thread_local make_block_local : Bool) (m : BitStructMap) :
    List Event :=
  [Event.verify] ++
  (if config.detect_read_only then [Event.pass Pass.detect_read_only] else []) ++
  [Event.pass Pass.demote_atomics, Event.verify] ++
  (if config.demote_dense_struct_fors then
    [Event.pass Pass.demote_dense_struct_fors, Event.pass Pass.type_check, Event.verify]
    else []) ++
  (if make_thread_local then [Event.pass Pass.make_thread_local] else []) ++
  (if make_block_local then [Event.pass Pass.make_block_local] else []) ++
  [Event.pass Pass.demote_atomics, Event.verify] ++
  (if quant && quant_opt then [Event.gather_uniquely_accessed_bit_structs m] else []) ++
  [Event.pass Pass.remove_range_assumption, Event.pass Pass.remove_loop_unique,
    Event.verify] ++
  (if lower_global_access then
    [Event.pass (Pass.lower_access true), Event.verify, Event.pass Pass.die, Event.verify,
      Event.pass Pass.flag_access, Event.verify]
    else []) ++
  [Event.pass Pass.demote_operations, Event.pass (Pass.full_simplify lower_global_access)] ++
  (if quant then
    [Event.pass (Pass.optimize_bit_struct_stores (if quant && quant_opt then m else []))]
    else []) ++
  [Event.pass Pass.type_check, Event.verify]

/-- The three passes gated by `lower_global_access`. -/
def lowering_only : Pass → Bool
  | Pass.lower_access _ => true
  | Pass.die => true
  | Pass.flag_access => true
  | _ => false

/-- An invocation of `full_simplify` with an argument other than `b`. -/
def full_simplify_other (b : Bool) : Pass → Bool
  | Pass.full_simplify c => c != b
  | _ => false

/-- The orchestrator as the specification words it: run Stage 1 with its
parameters, then, on the tree it leaves, Stage 2 with its parameters; a
failure of Stage 1 ends the run. -/
def orchestrator_spec (w : World Arch T) (ir : IRNode Arch) (config : CompileConfig Arch)
    (vectorize grad ad_use_stack verbose lower_global_access make_thread_local
      make_block_local : Bool) : Pipe T Unit :=
  fun s =>
    match compile_to_offloads w ir config verbose vectorize grad ad_use_stack s with
    | (Except.ok _, s1) =>
      offload_to_executable w ir config verbose lower_global_access make_thread_local
        make_block_local s1
    | (Except.error e, s1) => (Except.error e, s1)

/-- The call in which a run with this failure was aborted. -/
def Failure.call : Failure → Option Event
  | Failure.pass_failed p => some (Event.pass p)
  | Failure.verify_failed => some Event.verify
  | Failure.assertion_failed => none

/-- The straight line of a whole run of `compile_to_executable`. -/
def pipeline_plan (is_evaluator bit_gate quant quant_opt : Bool) (config : CompileConfig Arch)
    (vectorize grad ad_use_stack lower_global_access make_thread_local make_block_local : Bool)
    (m : BitStructMap) : List Instr :=
  stage1_plan is_evaluator bit_gate config vectorize grad ad_use_stack ++
  stage2_plan quant quant_opt config lower_global_access make_thread_local make_block_local m

/-- The value that `uniquely_accessed_bit_structs` holds after its
initialisation in the run of `compile_to_executable` from state `s`. -/
def pipeline_map (w : World Arch T) (ir : IRNode Arch) (config : CompileConfig Arch)
    (vectorize grad ad_use_stack verbose make_thread_local make_block_local : Bool)
    (s : PipeState T) : BitStructMap :=
  stage2_map w ir config verbose make_thread_local make_block_local
    (compile_to_offloads w ir config verbose vectorize grad ad_use_stack s).2

/-- The statements that may not occur before the bit-struct analysis: the
bit-struct store optimization, access lowering and the analysis itself. -/
def Instr.after_gather : Instr → Bool
  | Instr.pass (Pass.optimize_bit_struct_stores _) => true
  | Instr.pass (Pass.lower_access _) => true
  | Instr.gather _ => true
  | _ => false


/-- A root handle for examples whose configuration opts in to the bit-struct
analysis. -/
def demo_ir_quant : IRNode Nat where
  get_kernel := ⟨"k", false⟩
  get_config := { demo_config with quant_opt_atomic_demotion := true }

/-- Modelled from the spec: `irpass::re_id` and the bodies of the passes are
not in this translation unit.  The specification has `re_id` "re-assign stable
debug identifiers to every node" and calls the tracer "purely observational".
`R t1 t2` reads "`t1` and `t2` are the same tree up to debug identifiers":
renumbering stays within `R`, and passes, oracle and bit-struct analysis do
not tell related trees apart. -/
structure Observational {Arch T : Type} (w : World Arch T) (R : T → T → Prop) : Prop where
  refl : ∀ t, R t t
  re_id : ∀ t1 t2, R t1 t2 → R (w.re_id t1) t2
  apply : ∀ p t1 t2, R t1 t2 →
    (w.apply p t1 = none ∧ w.apply p t2 = none) ∨
      ∃ u1 u2, w.apply p t1 = some u1 ∧ w.apply p t2 = some u2 ∧ R u1 u2
  verify : ∀ t1 t2, R t1 t2 → w.verify t1 = w.verify t2
  gather : ∀ t1 t2, R t1 t2 → w.gather t1 = w.gather t2

/-- A world for examples in which renumbering changes the tree: a tree is a
pair of the number of passes applied and the number of renumberings. -/
def demo_id_world : World Nat (Nat × Nat) where
  cuda := 0
  arch_is_cpu := fun a => a == 1
  quant_supported := fun a => a == 0
  apply := fun _ t => some (t.1 + 1, t.2)
  verify := fun _ => true
  gather := fun t => [(t.1, [(0, 0)])]
  re_id := fun t => (t.1, t.2 + 1)

/-- Trees of `demo_id_world` that differ in their identifiers only. -/
def same_content (t1 t2 : Nat × Nat) : Prop := t1.1 = t2.1

/-- The pass and oracle calls of Stage 1 with the positions of the
checkpoints, as the driver groups them: one `verify` closes each group of
passes.  For an evaluator kernel compiled with `grad` the sequence ends at the
first checkpoint, where the run is aborted. -/
def stage1_call_reference {Arch : Type} (is_evaluator bit_gate : Bool)
    (config : CompileConfig Arch) (vectorize grad ad_use_stack : Bool) : List Event :=
  (if grad then [Event.pass Pass.reverse_segments] else []) ++
  [Event.pass Pass.lower_ast, Event.pass Pass.type_check, Event.verify] ++
  (if is_evaluator then
    (if grad then []
      else [Event.pass Pass.demote_operations, Event.pass Pass.offload, Event.verify])
  else
    (if vectorize then
      [Event.pass Pass.loop_vectorize, Event.verify,
        Event.pass (Pass.vector_split config.max_vector_width config.serial_schedule),
        Event.verify]
      else []) ++
    (if bit_gate then
      [Event.pass Pass.bit_loop_vectorize, Event.pass Pass.type_check, Event.verify]
      else []) ++
    [Event.pass (Pass.full_simplify false), Event.verify] ++
    (if grad then
      [Event.pass Pass.demote_atomics, Event.pass (Pass.full_simplify false),
        Event.pass (Pass.auto_diff ad_use_stack), Event.pass (Pass.full_simplify false),
        Event.verify]
      else []) ++
    (if config.check_out_of_bound then [Event.pass Pass.check_out_of_bound, Event.verify]
      else []) ++
    [Event.pass Pass.flag_access, Event.verify, Event.pass (Pass.full_simplify false),
      Event.verify, Event.pass Pass.offload, Event.verify] ++
    (if config.cfg_optimization then [Event.pass (Pass.cfg_optimization false), Event.verify]
      else []) ++
    [Event.pass Pass.flag_access, Event.pass (Pass.full_simplify false), Event.verify])

end Plans

/-! ## Laws of sequencing -/

section Laws

variable {Arch T : Type} [DecidableEq Arch]

theorem Pipe.bind_apply {α β : Type} (m : Pipe T α) (f : α → Pipe T β) (s : PipeState T) :
    (m >>= f) s =
      match m s with
      | (Except.ok a, s1) => f a s1
      | (Except.error e, s1) => (Except.error e, s1) := rfl

theorem Pipe.pure_apply {α : Type} (a : α) (s : PipeState T) :
    (pure a : Pipe T α) s = (Except.ok a, s) := rfl

theorem exec_nil (w : World Arch T) (verbose : Bool) (ir : IRNode Arch) :
    exec w verbose ir [] = pure () := rfl

theorem exec_cons (w : World Arch T) (verbose : Bool) (ir : IRNode Arch) (i : Instr)
    (rest : List Instr) :
    exec w verbose ir (i :: rest) =
      exec_instr w verbose ir i >>= fun _ => exec w verbose ir rest := by
  cases rest with
  | nil => simp [exec]
  | cons j rest => rfl

theorem exec_append (w : World Arch T) (verbose : Bool) (ir : IRNode Arch) (a b : List Instr) :
    exec w verbose ir (a ++ b) = exec w verbose ir a >>= fun _ => exec w verbose ir b := by
  induction a with
  | nil => simp [exec_nil]
  | cons i rest ih => simp [exec_cons, ih]

theorem exec_then_eq {α : Type} (w : World Arch T) (verbose : Bool) (ir : IRNode Arch)
    (a : List Instr) (k : Pipe T α) :
    exec_then w verbose ir a k = exec w verbose ir a >>= fun _ => k := by
  induction a with
  | nil => simp [exec_nil, exec_then]
  | cons i rest ih => simp [exec_cons, exec_then, ih]

/-- The body of `compile_to_offloads` is the straight line `stage1_plan`. -/
theorem compile_to_offloads_eq_exec (w : World Arch T) (ir : IRNode Arch)
    (config : CompileConfig Arch) (verbose vectorize grad ad_use_stack : Bool) :
    compile_to_offloads w ir config verbose vectorize grad ad_use_stack =
      exec w verbose ir
        (stage1_plan ir.get_kernel.is_evaluator
          (w.arch_is_cpu config.arch || config.arch == w.cuda) config vectorize grad
          ad_use_stack) := by
  unfold compile_to_offloads stage1_plan
  generalize (w.arch_is_cpu config.arch || config.arch == w.cuda) = g
  generalize ir.get_kernel.is_evaluator = ev
  generalize config.check_out_of_bound = oob
  generalize config.cfg_optimization = cfgo
  cases ev <;> cases g <;> cases vectorize <;> cases grad <;> cases oob <;> cases cfgo <;> rfl

/-- The body of `offload_to_executable`: the head, the initialisation of
`uniquely_accessed_bit_structs`, the tail. -/
theorem offload_to_executable_eq_exec_then (w : World Arch T) (ir : IRNode Arch)
    (config : CompileConfig Arch)
    (verbose lower_global_access make_thread_local make_block_local : Bool) :
    offload_to_executable w ir config verbose lower_global_access make_thread_local
        make_block_local =
      exec_then w verbose ir (stage2_head config make_thread_local make_block_local)
        ((if w.quant_supported config.arch && ir.get_config.quant_opt_atomic_demotion then
            gather_uniquely_accessed_bit_structs w
          else pure []) >>= fun m =>
          exec w verbose ir (stage2_tail (w.quant_supported config.arch) lower_global_access m)) := by
  unfold offload_to_executable stage2_head stage2_tail
  generalize w.quant_supported config.arch = q
  generalize ir.get_config.quant_opt_atomic_demotion = qo
  generalize config.detect_read_only = dro
  generalize config.demote_dense_struct_fors = dd
  cases q <;> cases qo <;> cases dro <;> cases dd <;> cases lower_global_access <;>
    cases make_thread_local <;> cases make_block_local <;> rfl

/-- The body of `offload_to_executable`, run from state `s`, is the straight
line `stage2_plan` with the map that the run computes. -/
theorem offload_to_executable_eq_exec (w : World Arch T) (ir : IRNode Arch)
    (config : CompileConfig Arch)
    (verbose lower_global_access make_thread_local make_block_local : Bool)
    (s : PipeState T) :
    offload_to_executable w ir config verbose lower_global_access make_thread_local
        make_block_local s =
      exec w verbose ir
        (stage2_plan (w.quant_supported config.arch) ir.get_config.quant_opt_atomic_demotion
          config lower_global_access make_thread_local make_block_local
          (stage2_map w ir config verbose make_thread_local make_block_local s)) s := by
  rw [offload_to_executable_eq_exec_then, exec_then_eq]
  unfold stage2_plan stage2_map
  rw [exec_append, exec_append]
  simp only [Pipe.bind_apply]
  rcases h : exec w verbose ir (stage2_head config make_thread_local make_block_local) s with
    ⟨r, s1⟩
  cases r with
  | error e => rfl
  | ok u =>
    simp only []
    cases hc : (w.quant_supported config.arch && ir.get_config.quant_opt_atomic_demotion)
    · simp [Pipe.bind_apply, Pipe.pure_apply, exec_nil]
    · simp [Pipe.bind_apply, exec_cons, exec_nil, exec_instr, gather_uniquely_accessed_bit_structs]

/-! ## What a run of a straight line leaves in the trace -/

theorem nominal_append (verbose : Bool) (ir : IRNode Arch) (a b : List Instr) :
    nominal verbose ir (a ++ b) = nominal verbose ir a ++ nominal verbose ir b := by
  induction a with
  | nil => rfl
  | cons i rest ih => simp [nominal, ih]

theorem replay_append (w : World Arch T) (a b : List Event) (t : T) :
    replay w (a ++ b) t =
      match replay w a t with
      | some t1 => replay w b t1
      | none => none := by
  induction a generalizing t with
  | nil => rfl
  | cons e rest ih =>
    simp only [List.cons_append, replay]
    cases replay_event w e t with
    | none => rfl
    | some t1 => exact ih t1

theorem replay_printer_events (w : World Arch T) (kn label : String) (t : T) :
    replay w (printer_events kn label) t = some (w.re_id t) := rfl

theorem exec_instr_ok (w : World Arch T) (verbose : Bool) (ir : IRNode Arch) (i : Instr)
    (s s1 : PipeState T) (u : Unit) (h : exec_instr w verbose ir i s = (Except.ok u, s1)) :
    s1.trace = s.trace ++ i.events verbose ir ∧
      replay w (i.events verbose ir) s.tree = some s1.tree ∧ i.holds = true := by
  cases i with
  | pass p =>
    simp only [exec_instr, call] at h
    cases hp : w.apply p s.tree with
    | none => rw [hp] at h; simp at h
    | some t =>
      rw [hp] at h
      simp only [Prod.mk.injEq, true_and] at h
      subst h
      simp [Instr.events, replay, replay_event, hp, Instr.holds]
  | verify =>
    simp only [exec_instr, verify] at h
    cases hv : w.verify s.tree with
    | false => rw [hv] at h; simp at h
    | true =>
      rw [hv] at h
      simp only [if_true, Prod.mk.injEq, true_and] at h
      subst h
      simp [Instr.events, replay, replay_event, hv, Instr.holds]
  | gather m =>
    simp only [exec_instr, Prod.mk.injEq, true_and] at h
    subst h
    simp [Instr.events, replay, replay_event, Instr.holds]
  | print label =>
    cases verbose with
    | false =>
      simp only [exec_instr, make_pass_printer, Bool.not_false, if_true, Pipe.pure_apply,
        Prod.mk.injEq, true_and] at h
      subst h
      simp [Instr.events, replay, Instr.holds]
    | true =>
      simp only [exec_instr, make_pass_printer, Bool.not_true, Bool.false_eq_true, if_false,
        Prod.mk.injEq, true_and] at h
      subst h
      simp [Instr.events, replay_printer_events, Instr.holds]
  | assert b =>
    cases b with
    | false => simp [exec_instr, TI_ASSERT] at h
    | true =>
      simp only [exec_instr, TI_ASSERT, if_true, Prod.mk.injEq, true_and] at h
      subst h
      simp [Instr.events, replay, Instr.holds]

theorem exec_instr_error (w : World Arch T) (verbose : Bool) (ir : IRNode Arch) (i : Instr)
    (s s1 : PipeState T) (f : Failure)
    (h : exec_instr w verbose ir i s = (Except.error f, s1)) :
    s1.trace = s.trace ++ i.events verbose ir ∧ s1.tree = s.tree ∧ Fails w s.tree i f := by
  cases i with
  | pass p =>
    simp only [exec_instr, call] at h
    cases hp : w.apply p s.tree with
    | some t => rw [hp] at h; simp at h
    | none =>
      rw [hp] at h
      simp only [Prod.mk.injEq, Except.error.injEq] at h
      obtain ⟨h1, h2⟩ := h
      subst h1 h2
      simp [Instr.events, Fails, hp]
  | verify =>
    simp only [exec_instr, verify] at h
    cases hv : w.verify s.tree with
    | true => rw [hv] at h; simp at h
    | false =>
      rw [hv] at h
      simp only [Bool.false_eq_true, if_false, Prod.mk.injEq, Except.error.injEq] at h
      obtain ⟨h1, h2⟩ := h
      subst h1 h2
      simp [Instr.events, Fails, hv]
  | gather m => simp [exec_instr] at h
  | print label =>
    cases verbose <;> simp [exec_instr, make_pass_printer, Pipe.pure_apply] at h
  | assert b =>
    cases b with
    | true => simp [exec_instr, TI_ASSERT] at h
    | false =>
      simp only [exec_instr, TI_ASSERT, Bool.false_eq_true, if_false, Prod.mk.injEq,
        Except.error.injEq] at h
      obtain ⟨h1, h2⟩ := h
      subst h1 h2
      simp [Instr.events, Fails]

/-- A line that ends normally has made all its calls, each with success, and
holds no violated assertion. -/
theorem exec_ok (w : World Arch T) (verbose : Bool) (ir : IRNode Arch) (plan : List Instr)
    (s s1 : PipeState T) (u : Unit) (h : exec w verbose ir plan s = (Except.ok u, s1)) :
    s1.trace = s.trace ++ nominal verbose ir plan ∧
      replay w (nominal verbose ir plan) s.tree = some s1.tree ∧
      plan.all Instr.holds = true := by
  induction plan generalizing s with
  | nil =>
    simp only [exec_nil, Pipe.pure_apply, Prod.mk.injEq, true_and] at h
    subst h
    simp [nominal, replay]
  | cons i rest ih =>
    rw [exec_cons, Pipe.bind_apply] at h
    rcases hi : exec_instr w verbose ir i s with ⟨r, s2⟩
    rw [hi] at h
    cases r with
    | error e => simp at h
    | ok u2 =>
      simp only [] at h
      obtain ⟨h1, h2, h3⟩ := exec_instr_ok w verbose ir i s s2 u2 hi
      obtain ⟨k1, k2, k3⟩ := ih s2 h
      refine ⟨?_, ?_, ?_⟩
      · rw [k1, h1]; simp [nominal]
      · rw [nominal, replay_append, h2]; exact k2
      · simp [h3, k3]

/-- A line that is aborted stopped in the statement that failed: the
statements before it ran with success, that one failed on the tree reached,
and nothing was called after it. -/
theorem exec_error (w : World Arch T) (verbose : Bool) (ir : IRNode Arch) (plan : List Instr)
    (s s1 : PipeState T) (f : Failure) (h : exec w verbose ir plan s = (Except.error f, s1)) :
    ∃ pre i post, plan = pre ++ i :: post ∧
      s1.trace = s.trace ++ nominal verbose ir (pre ++ [i]) ∧
      replay w (nominal verbose ir pre) s.tree = some s1.tree ∧
      Fails w s1.tree i f ∧ pre.all Instr.holds = true := by
  induction plan generalizing s with
  | nil => simp [exec_nil, Pipe.pure_apply] at h
  | cons i rest ih =>
    rw [exec_cons, Pipe.bind_apply] at h
    rcases hi : exec_instr w verbose ir i s with ⟨r, s2⟩
    rw [hi] at h
    cases r with
    | error e =>
      simp only [Prod.mk.injEq, Except.error.injEq] at h
      obtain ⟨h1, h2⟩ := h
      subst h1 h2
      obtain ⟨k1, k2, k3⟩ := exec_instr_error w verbose ir i s s2 e hi
      refine ⟨[], i, rest, rfl, ?_, ?_, ?_, rfl⟩
      · rw [k1]; simp [nominal]
      · rw [k2]; rfl
      · rw [k2]; exact k3
    | ok u2 =>
      simp only [] at h
      obtain ⟨h1, h2, h3⟩ := exec_instr_ok w verbose ir i s s2 u2 hi
      obtain ⟨pre, j, post, k1, k2, k3, k4, k5⟩ := ih s2 h
      refine ⟨i :: pre, j, post, ?_, ?_, ?_, k4, ?_⟩
      · rw [k1]; rfl
      · rw [k2, h1]; simp [nominal]
      · rw [nominal, replay_append, h2]; exact k3
      · simp [h3, k5]

/-! ## The shape of a run -/

theorem calls_append (a b : List Event) : calls (a ++ b) = calls a ++ calls b := by
  simp [calls]

theorem passes_append (a b : List Event) : passes (a ++ b) = passes a ++ passes b := by
  induction a with
  | nil => rfl
  | cons e rest ih => cases e <;> simp [passes, ih]

theorem passes_calls (l : List Event) : passes (calls l) = passes l := by
  induction l with
  | nil => rfl
  | cons e rest ih => cases e <;> simp_all [calls, passes, Event.is_tracer]

theorem plan_calls_append (a b : List Instr) :
    plan_calls (a ++ b) = plan_calls a ++ plan_calls b := by
  induction a with
  | nil => rfl
  | cons i rest ih => simp [plan_calls, ih]

theorem calls_nominal (verbose : Bool) (ir : IRNode Arch) (plan : List Instr) :
    calls (nominal verbose ir plan) = plan_calls plan := by
  induction plan with
  | nil => rfl
  | cons i rest ih =>
    rw [nominal, calls_append, ih, plan_calls]
    congr 1
    cases i <;> cases verbose <;> rfl

theorem takeWhile_holds_all (plan : List Instr) (h : plan.all Instr.holds = true) :
    plan.takeWhile Instr.holds = plan := by
  rw [List.takeWhile_eq_self_iff]
  intro i hi
  exact (List.all_eq_true.mp h) i hi

theorem takeWhile_holds_split (pre post : List Instr) (b : Bool)
    (h : pre.all Instr.holds = true) (hb : b = false) :
    (pre ++ Instr.assert b :: post).takeWhile Instr.holds = pre := by
  subst hb
  induction pre with
  | nil => rfl
  | cons i rest ih =>
    simp only [List.all_cons, Bool.and_eq_true] at h
    simp [List.takeWhile_cons, h.1, ih h.2]

/-- Whatever happens, the driver calls of a run are those of an initial
segment of the line. -/
theorem exec_calls_split (w : World Arch T) (verbose : Bool) (ir : IRNode Arch)
    (plan : List Instr) (t : T) :
    ∃ pre post, plan = pre ++ post ∧
      calls (exec w verbose ir plan ⟨t, []⟩).2.trace = plan_calls pre := by
  rcases h : exec w verbose ir plan ⟨t, []⟩ with ⟨r, s1⟩
  cases r with
  | ok u =>
    obtain ⟨h1, -, -⟩ := exec_ok w verbose ir plan _ s1 u h
    refine ⟨plan, [], by simp, ?_⟩
    simp only [h1, List.nil_append, calls_nominal]
  | error f =>
    obtain ⟨pre, i, post, h1, h2, -, -, -⟩ := exec_error w verbose ir plan _ s1 f h
    refine ⟨pre ++ [i], post, by simp [h1], ?_⟩
    simp only [h2, List.nil_append, calls_nominal]

/-- When no pass and no oracle call fails, the run goes up to the first
violated assertion, or to the end of the line when there is none. -/
theorem exec_no_step_failure (w : World Arch T) (verbose : Bool) (ir : IRNode Arch)
    (plan : List Instr) (t : T)
    (h : no_step_failure (exec w verbose ir plan ⟨t, []⟩).1 = true) :
    (exec w verbose ir plan ⟨t, []⟩).1 =
        (if plan.all Instr.holds then Except.ok () else Except.error Failure.assertion_failed) ∧
      calls (exec w verbose ir plan ⟨t, []⟩).2.trace =
        plan_calls (plan.takeWhile Instr.holds) := by
  rcases hr : exec w verbose ir plan ⟨t, []⟩ with ⟨r, s1⟩
  rw [hr] at h
  cases r with
  | ok u =>
    obtain ⟨h1, -, h3⟩ := exec_ok w verbose ir plan _ s1 u hr
    simp only [h3, if_true, h1, List.nil_append, calls_nominal, takeWhile_holds_all plan h3,
      and_self]
  | error f =>
    obtain ⟨pre, i, post, h1, h2, -, h4, h5⟩ := exec_error w verbose ir plan _ s1 f hr
    cases f with
    | pass_failed p => simp [no_step_failure, Failure.is_step] at h
    | verify_failed => simp [no_step_failure, Failure.is_step] at h
    | assertion_failed =>
      cases i with
      | assert b =>
        have hb : b = false := h4
        have hall : plan.all Instr.holds = false := by
          rw [h1, hb]
          simp [Instr.holds]
        simp only [hall, Bool.false_eq_true, if_false, h2, List.nil_append, calls_nominal,
          true_and]
        rw [h1, takeWhile_holds_split pre post b h5 hb, plan_calls_append]
        simp [plan_calls, Instr.calls]
      | pass p => exact absurd h4 (by simp [Fails])
      | verify => exact absurd h4 (by simp [Fails])
      | gather m => exact absurd h4 (by simp [Fails])
      | print label => exact absurd h4 (by simp [Fails])

/-- A run aborted by a pass or by the oracle made that call last. -/
theorem exec_step_failure_last (w : World Arch T) (verbose : Bool) (ir : IRNode Arch)
    (plan : List Instr) (t : T) (f : Failure)
    (h : (exec w verbose ir plan ⟨t, []⟩).1 = Except.error f) (hf : f.is_step = true) :
    ∃ l e, (exec w verbose ir plan ⟨t, []⟩).2.trace = l ++ [e] ∧
      (match f with
        | Failure.pass_failed p => e = Event.pass p
        | _ => e = Event.verify) := by
  rcases hr : exec w verbose ir plan ⟨t, []⟩ with ⟨r, s1⟩
  rw [hr] at h
  simp only at h
  subst h
  obtain ⟨pre, i, post, h1, h2, -, h4, -⟩ := exec_error w verbose ir plan _ s1 f hr
  cases f with
  | assertion_failed => simp [Failure.is_step] at hf
  | pass_failed p =>
    cases i with
    | pass q =>
      obtain ⟨hq, -⟩ : p = q ∧ _ := h4
      subst hq
      exact ⟨nominal verbose ir pre, Event.pass p, by
        simp [h2, nominal_append, nominal, Instr.events], rfl⟩
    | verify => exact absurd h4 (by simp [Fails])
    | gather m => exact absurd h4 (by simp [Fails])
    | print label => exact absurd h4 (by simp [Fails])
    | assert b => exact absurd h4 (by simp [Fails])
  | verify_failed =>
    cases i with
    | verify =>
      exact ⟨nominal verbose ir pre, Event.verify, by
        simp [h2, nominal_append, nominal, Instr.events], rfl⟩
    | pass q => exact absurd h4 (by simp [Fails])
    | gather m => exact absurd h4 (by simp [Fails])
    | print label => exact absurd h4 (by simp [Fails])
    | assert b => exact absurd h4 (by simp [Fails])



theorem calls_cons (e : Event) (l : List Event) :
    calls (e :: l) = if e.is_tracer then calls l else e :: calls l := by
  cases h : e.is_tracer <;> simp [calls, h]

theorem within_budget_calls (n cur : Nat) (l : List Event) :
    within_budget n cur (calls l) = within_budget n cur l := by
  induction l generalizing cur with
  | nil => rfl
  | cons e rest ih =>
    cases e <;> rw [calls_cons] <;>
      simp only [Event.is_tracer, if_true, if_false, Bool.false_eq_true, within_budget, ih]

theorem within_budget_append_left (n cur : Nat) (pre post : List Event)
    (h : within_budget n cur (pre ++ post) = true) : within_budget n cur pre = true := by
  induction pre generalizing cur with
  | nil => rfl
  | cons e rest ih =>
    cases e <;> simp only [List.cons_append, within_budget, Bool.and_eq_true] at h ⊢
    case pass p => exact ⟨h.1, ih _ h.2⟩
    all_goals exact ih _ h

theorem within_budget_append_right (n cur : Nat) (pre l : List Event)
    (h : within_budget n cur (pre ++ l) = true) : ∃ c, within_budget n c l = true := by
  induction pre generalizing cur with
  | nil => exact ⟨cur, h⟩
  | cons e rest ih =>
    cases e <;> simp only [List.cons_append, within_budget, Bool.and_eq_true] at h
    case pass p => exact ih _ h.2
    all_goals exact ih _ h

theorem within_budget_passes (n cur : Nat) (mid post : List Event)
    (h : within_budget n cur (mid ++ post) = true) (hv : Event.verify ∉ mid) :
    (passes mid).length = 0 ∨ cur + (passes mid).length ≤ n := by
  induction mid generalizing cur with
  | nil => simp [passes]
  | cons e rest ih =>
    simp only [List.mem_cons, not_or] at hv
    cases e <;> simp only [List.cons_append, within_budget, Bool.and_eq_true] at h
    case pass p =>
      have h1 := Nat.le_of_ble_eq_true h.1
      rcases ih _ h.2 hv.2 with h2 | h2
      · right; simp only [passes, List.length_cons, h2]; omega
      · right; simp only [passes, List.length_cons]; omega
    case verify => exact absurd rfl hv.1
    all_goals exact ih _ h hv.2

theorem checkpointed_within_of_budget (n : Nat) (l : List Event)
    (h : within_budget n 0 l = true) : Checkpointed_within n l := by
  intro pre mid post hl hv
  rw [hl, List.append_assoc] at h
  obtain ⟨c, hc⟩ := within_budget_append_right n 0 pre _ h
  rcases within_budget_passes n c mid post hc hv with h1 | h1 <;> omega

/-! ## C1: the checkpoint protocol, bounds -/

theorem stage1_budget (ev g : Bool) (config : CompileConfig Arch)
    (vectorize grad ad_use_stack : Bool) :
    within_budget 4 0 (plan_calls (stage1_plan ev g config vectorize grad ad_use_stack)) =
      true := by
  unfold stage1_plan
  generalize config.check_out_of_bound = oob
  generalize config.cfg_optimization = cfgo
  cases ev <;> cases g <;> cases vectorize <;> cases grad <;> cases oob <;> cases cfgo <;> rfl

theorem stage2_budget (q qo : Bool) (config : CompileConfig Arch)
    (lower_global_access make_thread_local make_block_local : Bool) (m : BitStructMap) :
    within_budget 4 0 (plan_calls (stage2_plan q qo config lower_global_access
      make_thread_local make_block_local m)) = true := by
  unfold stage2_plan stage2_head stage2_tail
  generalize config.detect_read_only = dro
  generalize config.demote_dense_struct_fors = dd
  cases q <;> cases qo <;> cases dro <;> cases dd <;> cases lower_global_access <;>
    cases make_thread_local <;> cases make_block_local <;> rfl

theorem stage1_last_call (ev g : Bool) (config : CompileConfig Arch)
    (vectorize grad ad_use_stack : Bool) :
    (plan_calls ((stage1_plan ev g config vectorize grad ad_use_stack).takeWhile
      Instr.holds)).getLast? = some Event.verify := by
  unfold stage1_plan
  generalize config.check_out_of_bound = oob
  generalize config.cfg_optimization = cfgo
  cases ev <;> cases g <;> cases vectorize <;> cases grad <;> cases oob <;> cases cfgo <;>
    rfl

theorem stage2_last_call (q qo : Bool) (config : CompileConfig Arch)
    (lower_global_access make_thread_local make_block_local : Bool) (m : BitStructMap) :
    (plan_calls ((stage2_plan q qo config lower_global_access make_thread_local
      make_block_local m).takeWhile Instr.holds)).getLast? = some Event.verify := by
  unfold stage2_plan stage2_head stage2_tail
  generalize config.detect_read_only = dro
  generalize config.demote_dense_struct_fors = dd
  cases q <;> cases qo <;> cases dro <;> cases dd <;> cases lower_global_access <;>
    cases make_thread_local <;> cases make_block_local <;> rfl

/-- Every stretch of a run of a straight line without an oracle call holds at
most `n` passes when that is so of the line itself. -/
theorem exec_checkpointed (w : World Arch T) (verbose : Bool) (ir : IRNode Arch)
    (plan : List Instr) (t : T) (n : Nat) (h : within_budget n 0 (plan_calls plan) = true) :
    Checkpointed_within n (exec w verbose ir plan ⟨t, []⟩).2.trace := by
  apply checkpointed_within_of_budget
  obtain ⟨pre, post, h1, h2⟩ := exec_calls_split w verbose ir plan t
  rw [← within_budget_calls, h2]
  rw [h1, plan_calls_append] at h
  exact within_budget_append_left n 0 _ _ h

/-- Unless a pass fails, the last driver call of a run of a straight line is
the oracle, provided the line ends so up to its first violated assertion. -/
theorem exec_last_call (w : World Arch T) (verbose : Bool) (ir : IRNode Arch)
    (plan : List Instr) (t : T)
    (h : (plan_calls (plan.takeWhile Instr.holds)).getLast? = some Event.verify)
    (hp : ∀ p, (exec w verbose ir plan ⟨t, []⟩).1 ≠ Except.error (Failure.pass_failed p)) :
    (calls (exec w verbose ir plan ⟨t, []⟩).2.trace).getLast? = some Event.verify := by
  rcases hr : (exec w verbose ir plan ⟨t, []⟩).1 with f | u
  · cases f with
    | pass_failed p => exact absurd hr (hp p)
    | verify_failed =>
      obtain ⟨l, e, h1, h2⟩ := exec_step_failure_last w verbose ir plan t _ hr rfl
      simp only at h2
      rw [h1, h2, calls_append]
      simp [calls, Event.is_tracer]
    | assertion_failed =>
      have := exec_no_step_failure w verbose ir plan t (by rw [hr]; rfl)
      rw [this.2]; exact h
  · have := exec_no_step_failure w verbose ir plan t (by rw [hr]; rfl)
    rw [this.2]; exact h

/-- C1, counterexample: a non-evaluator kernel without gradient on a CUDA
target.  `compile_to_offloads` invokes `lower_ast` and then `type_check`,
and `offload_to_executable` invokes `remove_range_assumption` and then
`remove_loop_unique`, with no `analysis::verify` in between. -/
theorem checkpoint_protocol_counterexample :
    ¬ Checkpointed_within 1
        (compile_to_offloads demo_world (demo_ir false) demo_config false false false false
          ⟨0, []⟩).2.trace ∧
    ¬ Checkpointed_within 1
        (offload_to_executable demo_world (demo_ir false) demo_config false false false false
          ⟨0, []⟩).2.trace := by
  constructor
  · intro h
    have := h [] [Event.pass Pass.lower_ast, Event.pass Pass.type_check] _ rfl (by decide)
    simp [passes] at this
  · intro h
    have := h [Event.verify, Event.pass Pass.demote_atomics, Event.verify,
      Event.pass Pass.demote_atomics, Event.verify]
      [Event.pass Pass.remove_range_assumption, Event.pass Pass.remove_loop_unique] _ rfl
      (by decide)
    simp [passes] at this

/-! ## C2, C3: the evaluator branch of Stage 1 -/

theorem takeWhile_holds_cons_split (pre post : List Instr) (i : Instr)
    (h : pre.all Instr.holds = true) (hi : i.holds = true) :
    (pre ++ i :: post).takeWhile Instr.holds = pre ++ i :: post.takeWhile Instr.holds := by
  induction pre with
  | nil => simp [List.takeWhile_cons, hi]
  | cons j rest ih =>
    simp only [List.all_cons, Bool.and_eq_true] at h
    simp [List.takeWhile_cons, h.1, ih h.2]

/-- Whatever happens, the driver calls of a run are an initial segment of the
calls of the line up to its first violated assertion. -/
theorem exec_calls_reach (w : World Arch T) (verbose : Bool) (ir : IRNode Arch)
    (plan : List Instr) (t : T) :
    ∃ post, plan_calls (plan.takeWhile Instr.holds) =
      calls (exec w verbose ir plan ⟨t, []⟩).2.trace ++ post := by
  rcases h : exec w verbose ir plan ⟨t, []⟩ with ⟨r, s1⟩
  cases r with
  | ok u =>
    obtain ⟨h1, -, h3⟩ := exec_ok w verbose ir plan _ s1 u h
    refine ⟨[], ?_⟩
    simp only [h1, List.nil_append, calls_nominal, takeWhile_holds_all plan h3,
      List.append_nil]
  | error f =>
    obtain ⟨pre, i, post, h1, h2, -, -, h5⟩ := exec_error w verbose ir plan _ s1 f h
    simp only [h2, List.nil_append, calls_nominal]
    cases hi : i.holds with
    | true =>
      refine ⟨plan_calls (post.takeWhile Instr.holds), ?_⟩
      rw [h1, takeWhile_holds_cons_split pre post i h5 hi]
      simp [plan_calls_append, plan_calls]
    | false =>
      cases i with
      | assert b =>
        cases b with
        | true => simp [Instr.holds] at hi
        | false =>
          refine ⟨[], ?_⟩
          rw [h1, takeWhile_holds_split pre post false h5 rfl]
          simp [plan_calls_append, plan_calls, Instr.calls]
      | pass p => simp [Instr.holds] at hi
      | verify => simp [Instr.holds] at hi
      | gather m => simp [Instr.holds] at hi
      | print label => simp [Instr.holds] at hi

theorem stage1_evaluator_grad_calls (g : Bool) (config : CompileConfig Arch)
    (vectorize ad_use_stack : Bool) :
    (stage1_plan true g config vectorize true ad_use_stack).all Instr.holds = false ∧
    plan_calls ((stage1_plan true g config vectorize true ad_use_stack).takeWhile Instr.holds) =
      [Event.pass Pass.reverse_segments, Event.pass Pass.lower_ast, Event.pass Pass.type_check,
        Event.verify] := by
  cases g <;> cases vectorize <;> exact ⟨rfl, rfl⟩

theorem stage1_evaluator_calls (g : Bool) (config : CompileConfig Arch)
    (vectorize ad_use_stack : Bool) :
    (stage1_plan true g config vectorize false ad_use_stack).all Instr.holds = true ∧
    plan_calls ((stage1_plan true g config vectorize false ad_use_stack).takeWhile
      Instr.holds) =
      [Event.pass Pass.lower_ast, Event.pass Pass.type_check, Event.verify,
        Event.pass Pass.demote_operations, Event.pass Pass.offload, Event.verify] := by
  cases g <;> cases vectorize <;> exact ⟨rfl, rfl⟩

theorem stage1_general_calls (g : Bool) (config : CompileConfig Arch)
    (vectorize grad ad_use_stack : Bool) :
    (stage1_plan false g config vectorize grad ad_use_stack).all Instr.holds = true ∧
    passes (plan_calls (stage1_plan false g config vectorize grad ad_use_stack)) =
      stage1_reference g config vectorize grad ad_use_stack := by
  unfold stage1_plan stage1_reference
  generalize config.check_out_of_bound = oob
  generalize config.cfg_optimization = cfgo
  cases g <;> cases vectorize <;> cases grad <;> cases oob <;> cases cfgo <;> exact ⟨rfl, rfl⟩

/-- C2, counterexample: an evaluator kernel compiled with `grad = true` in a
world where every pass succeeds.  The run fails at `TI_ASSERT(!grad)`, but
`reverse_segments`, `lower_ast` and `type_check` have been invoked by then. -/
theorem evaluator_grad_counterexample :
    (compile_to_offloads demo_world (demo_ir true) demo_config false false true false
        ⟨0, []⟩).1 = Except.error Failure.assertion_failed ∧
      passes (compile_to_offloads demo_world (demo_ir true) demo_config false false true false
        ⟨0, []⟩).2.trace =
        [Pass.reverse_segments, Pass.lower_ast, Pass.type_check] ∧
      passes (compile_to_offloads demo_world (demo_ir true) demo_config false false true false
        ⟨0, []⟩).2.trace ≠ [] :=
  ⟨rfl, by decide, by decide⟩

/-- C2, amended: every run of `compile_to_offloads` on an evaluator kernel
with `grad = true` fails; the passes invoked are an initial segment of
`reverse_segments, lower_ast, type_check` (so `demote_operations`, `offload`
and every later pass are never invoked), and when no pass and no oracle call
fails the run is aborted by `TI_ASSERT(!grad)` after exactly the calls
`reverse_segments, lower_ast, type_check, verify`. -/
theorem evaluator_grad_fails (w : World Arch T) (ir : IRNode Arch) (config : CompileConfig Arch)
    (verbose vectorize ad_use_stack : Bool) (t : T)
    (hev : ir.get_kernel.is_evaluator = true) :
    (compile_to_offloads w ir config verbose vectorize true ad_use_stack ⟨t, []⟩).1 ≠
        Except.ok () ∧
      (∃ post, [Pass.reverse_segments, Pass.lower_ast, Pass.type_check] =
        passes (compile_to_offloads w ir config verbose vectorize true ad_use_stack
          ⟨t, []⟩).2.trace ++ post) ∧
      (no_step_failure
          (compile_to_offloads w ir config verbose vectorize true ad_use_stack ⟨t, []⟩).1 =
            true →
        (compile_to_offloads w ir config verbose vectorize true ad_use_stack ⟨t, []⟩).1 =
            Except.error Failure.assertion_failed ∧
          calls (compile_to_offloads w ir config verbose vectorize true ad_use_stack
            ⟨t, []⟩).2.trace =
            [Event.pass Pass.reverse_segments, Event.pass Pass.lower_ast,
              Event.pass Pass.type_check, Event.verify]) := by
  rw [compile_to_offloads_eq_exec, hev]
  obtain ⟨hall, hcalls⟩ := stage1_evaluator_grad_calls
    (w.arch_is_cpu config.arch || config.arch == w.cuda) config vectorize ad_use_stack
  refine ⟨?_, ?_, ?_⟩
  · intro h
    rcases hr : exec w verbose ir _ ⟨t, []⟩ with ⟨r, s1⟩
    rw [hr] at h
    simp only at h
    subst h
    obtain ⟨-, -, h3⟩ := exec_ok w verbose ir _ _ s1 () hr
    rw [hall] at h3
    exact absurd h3 (by decide)
  · obtain ⟨post, hp⟩ := exec_calls_reach w verbose ir _ t
    rw [hcalls] at hp
    refine ⟨passes post, ?_⟩
    rw [← passes_calls (exec w verbose ir _ ⟨t, []⟩).2.trace, ← passes_append, ← hp]
    rfl
  · intro h
    obtain ⟨h1, h2⟩ := exec_no_step_failure w verbose ir _ t h
    rw [hall] at h1
    rw [hcalls] at h2
    exact ⟨h1, h2⟩


/-- The passes of a run of a straight line without violated assertion are an
initial segment of the passes of the line, and all of them when no pass and no
oracle call fails. -/
theorem exec_passes_shape (w : World Arch T) (verbose : Bool) (ir : IRNode Arch)
    (plan : List Instr) (t : T) (ref : List Pass) (hall : plan.all Instr.holds = true)
    (href : passes (plan_calls plan) = ref) :
    (∃ post, ref = passes (exec w verbose ir plan ⟨t, []⟩).2.trace ++ post) ∧
      (no_step_failure (exec w verbose ir plan ⟨t, []⟩).1 = true →
        (exec w verbose ir plan ⟨t, []⟩).1 = Except.ok () ∧
          passes (exec w verbose ir plan ⟨t, []⟩).2.trace = ref) := by
  constructor
  · obtain ⟨post, hp⟩ := exec_calls_reach w verbose ir plan t
    rw [takeWhile_holds_all plan hall] at hp
    refine ⟨passes post, ?_⟩
    rw [← passes_calls (exec w verbose ir plan ⟨t, []⟩).2.trace, ← passes_append, ← hp, href]
  · intro h
    obtain ⟨h1, h2⟩ := exec_no_step_failure w verbose ir plan t h
    rw [hall] at h1
    rw [takeWhile_holds_all plan hall] at h2
    refine ⟨h1, ?_⟩
    rw [← passes_calls, h2, href]

/-- C3: on an evaluator kernel with `grad = false`, for every value of
`vectorize`, `ad_use_stack` and the configuration, the passes invoked are an
initial segment of `lower_ast, type_check, demote_operations, offload`, none
of the vectorization, simplification, autodiff, bound-check, access-flag and
CFG passes is invoked, and when no pass and no oracle call fails the run
returns normally having invoked exactly those four passes. -/
theorem evaluator_shortcut (w : World Arch T) (ir : IRNode Arch) (config : CompileConfig Arch)
    (verbose vectorize ad_use_stack : Bool) (t : T)
    (hev : ir.get_kernel.is_evaluator = true) :
    (∃ post, [Pass.lower_ast, Pass.type_check, Pass.demote_operations, Pass.offload] =
        passes (compile_to_offloads w ir config verbose vectorize false ad_use_stack
          ⟨t, []⟩).2.trace ++ post) ∧
      (∀ p ∈ passes (compile_to_offloads w ir config verbose vectorize false ad_use_stack
          ⟨t, []⟩).2.trace, evaluator_skipped p = false) ∧
      (no_step_failure
          (compile_to_offloads w ir config verbose vectorize false ad_use_stack ⟨t, []⟩).1 =
            true →
        (compile_to_offloads w ir config verbose vectorize false ad_use_stack ⟨t, []⟩).1 =
            Except.ok () ∧
          passes (compile_to_offloads w ir config verbose vectorize false ad_use_stack
            ⟨t, []⟩).2.trace =
            [Pass.lower_ast, Pass.type_check, Pass.demote_operations, Pass.offload]) := by
  rw [compile_to_offloads_eq_exec, hev]
  obtain ⟨hall, hcalls⟩ := stage1_evaluator_calls
    (w.arch_is_cpu config.arch || config.arch == w.cuda) config vectorize ad_use_stack
  rw [takeWhile_holds_all _ hall] at hcalls
  obtain ⟨⟨post, hp⟩, hfull⟩ := exec_passes_shape w verbose ir _ t
    [Pass.lower_ast, Pass.type_check, Pass.demote_operations, Pass.offload] hall
    (by rw [hcalls]; rfl)
  refine ⟨⟨post, hp⟩, ?_, hfull⟩
  intro p hmem
  have hin : p ∈ [Pass.lower_ast, Pass.type_check, Pass.demote_operations, Pass.offload] := by
    rw [hp]; exact List.mem_append_left _ hmem
  simp only [List.mem_cons, List.mem_singleton, List.not_mem_nil, or_false] at hin
  rcases hin with h | h | h | h <;> subst h <;> rfl


/-- C2, witness: the example evaluator kernel. -/
theorem evaluator_grad_fails_witness :
    (demo_ir true).get_kernel.is_evaluator = true ∧
      (compile_to_offloads demo_world (demo_ir true) demo_config true true true true
        ⟨0, []⟩).1 ≠ Except.ok () :=
  ⟨rfl, (evaluator_grad_fails demo_world (demo_ir true) demo_config true true true 0
    rfl).1⟩

/-- C3, witness: the example evaluator kernel in a world where nothing fails. -/
theorem evaluator_shortcut_witness :
    (demo_ir true).get_kernel.is_evaluator = true ∧
      no_step_failure (compile_to_offloads demo_world (demo_ir true) demo_config false true
        false true ⟨0, []⟩).1 = true ∧
      passes (compile_to_offloads demo_world (demo_ir true) demo_config false true false true
        ⟨0, []⟩).2.trace =
        [Pass.lower_ast, Pass.type_check, Pass.demote_operations, Pass.offload] :=
  ⟨rfl, rfl,
    ((evaluator_shortcut demo_world (demo_ir true) demo_config false true true 0
      rfl).2.2 rfl).2⟩



/-! ## C4, C6: the general path of Stage 1 -/

/-- The passes of a run of `compile_to_offloads` on a kernel that is not an
evaluator, against the reference list. -/
theorem stage1_passes_shape (w : World Arch T) (ir : IRNode Arch) (config : CompileConfig Arch)
    (verbose vectorize grad ad_use_stack : Bool) (t : T)
    (hev : ir.get_kernel.is_evaluator = false) :
    (∃ post, stage1_reference (w.arch_is_cpu config.arch || config.arch == w.cuda) config
          vectorize grad ad_use_stack =
        passes (compile_to_offloads w ir config verbose vectorize grad ad_use_stack
          ⟨t, []⟩).2.trace ++ post) ∧
      (no_step_failure
          (compile_to_offloads w ir config verbose vectorize grad ad_use_stack ⟨t, []⟩).1 =
            true →
        (compile_to_offloads w ir config verbose vectorize grad ad_use_stack ⟨t, []⟩).1 =
            Except.ok () ∧
          passes (compile_to_offloads w ir config verbose vectorize grad ad_use_stack
            ⟨t, []⟩).2.trace =
            stage1_reference (w.arch_is_cpu config.arch || config.arch == w.cuda) config
              vectorize grad ad_use_stack) := by
  rw [compile_to_offloads_eq_exec, hev]
  obtain ⟨hall, href⟩ := stage1_general_calls
    (w.arch_is_cpu config.arch || config.arch == w.cuda) config vectorize grad ad_use_stack
  exact exec_passes_shape w verbose ir _ t _ hall href

theorem stage1_reference_gates (g : Bool) (config : CompileConfig Arch)
    (vectorize grad ad_use_stack : Bool) :
    (Pass.reverse_segments ∈ stage1_reference g config vectorize grad ad_use_stack ↔
        grad = true) ∧
      (Pass.loop_vectorize ∈ stage1_reference g config vectorize grad ad_use_stack ↔
        vectorize = true) ∧
      (Pass.vector_split config.max_vector_width config.serial_schedule ∈
          stage1_reference g config vectorize grad ad_use_stack ↔ vectorize = true) ∧
      (Pass.bit_loop_vectorize ∈ stage1_reference g config vectorize grad ad_use_stack ↔
        g = true) ∧
      (Pass.demote_atomics ∈ stage1_reference g config vectorize grad ad_use_stack ↔
        grad = true) ∧
      (Pass.auto_diff ad_use_stack ∈ stage1_reference g config vectorize grad ad_use_stack ↔
        grad = true) ∧
      (Pass.check_out_of_bound ∈ stage1_reference g config vectorize grad ad_use_stack ↔
        config.check_out_of_bound = true) ∧
      (Pass.cfg_optimization false ∈ stage1_reference g config vectorize grad ad_use_stack ↔
        config.cfg_optimization = true) := by
  unfold stage1_reference
  generalize config.check_out_of_bound = oob
  generalize config.cfg_optimization = cfgo
  cases g <;> cases vectorize <;> cases grad <;> cases oob <;> cases cfgo <;> simp

theorem stage1_reference_no_vectorize (g : Bool) (config : CompileConfig Arch)
    (grad ad_use_stack : Bool) :
    (stage1_reference g config false grad ad_use_stack).all (fun p => !is_vectorize p) =
      true := by
  unfold stage1_reference
  generalize config.check_out_of_bound = oob
  generalize config.cfg_optimization = cfgo
  cases g <;> cases grad <;> cases oob <;> cases cfgo <;> rfl

/-- C4: for every kernel that is not an evaluator and every combination of
`vectorize`, `grad`, `ad_use_stack` and the configuration, the passes invoked
by `compile_to_offloads`, with their arguments, are an initial segment of the
reference list; when no pass and no oracle call fails the run returns
normally, the passes invoked are exactly the reference list, and each gated
pass occurs if and only if its gate holds.  With `vectorize = false` neither
`loop_vectorize` nor `vector_split` is invoked. -/
theorem stage1_general_path (w : World Arch T) (ir : IRNode Arch) (config : CompileConfig Arch)
    (verbose vectorize grad ad_use_stack : Bool) (t : T)
    (hev : ir.get_kernel.is_evaluator = false) :
    (∃ post, stage1_reference (w.arch_is_cpu config.arch || config.arch == w.cuda) config
          vectorize grad ad_use_stack =
        passes (compile_to_offloads w ir config verbose vectorize grad ad_use_stack
          ⟨t, []⟩).2.trace ++ post) ∧
      (no_step_failure
          (compile_to_offloads w ir config verbose vectorize grad ad_use_stack ⟨t, []⟩).1 =
            true →
        (compile_to_offloads w ir config verbose vectorize grad ad_use_stack ⟨t, []⟩).1 =
            Except.ok () ∧
          passes (compile_to_offloads w ir config verbose vectorize grad ad_use_stack
            ⟨t, []⟩).2.trace =
            stage1_reference (w.arch_is_cpu config.arch || config.arch == w.cuda) config
              vectorize grad ad_use_stack ∧
          (Pass.reverse_segments ∈ passes (compile_to_offloads w ir config verbose vectorize
              grad ad_use_stack ⟨t, []⟩).2.trace ↔ grad = true) ∧
          (Pass.loop_vectorize ∈ passes (compile_to_offloads w ir config verbose vectorize
              grad ad_use_stack ⟨t, []⟩).2.trace ↔ vectorize = true) ∧
          (Pass.vector_split config.max_vector_width config.serial_schedule ∈
              passes (compile_to_offloads w ir config verbose vectorize grad ad_use_stack
                ⟨t, []⟩).2.trace ↔ vectorize = true) ∧
          (Pass.bit_loop_vectorize ∈ passes (compile_to_offloads w ir config verbose vectorize
              grad ad_use_stack ⟨t, []⟩).2.trace ↔
            (w.arch_is_cpu config.arch || config.arch == w.cuda) = true) ∧
          (Pass.demote_atomics ∈ passes (compile_to_offloads w ir config verbose vectorize
              grad ad_use_stack ⟨t, []⟩).2.trace ↔ grad = true) ∧
          (Pass.auto_diff ad_use_stack ∈ passes (compile_to_offloads w ir config verbose
              vectorize grad ad_use_stack ⟨t, []⟩).2.trace ↔ grad = true) ∧
          (Pass.check_out_of_bound ∈ passes (compile_to_offloads w ir config verbose vectorize
              grad ad_use_stack ⟨t, []⟩).2.trace ↔ config.check_out_of_bound = true) ∧
          (Pass.cfg_optimization false ∈ passes (compile_to_offloads w ir config verbose
              vectorize grad ad_use_stack ⟨t, []⟩).2.trace ↔
            config.cfg_optimization = true)) ∧
      (vectorize = false →
        ∀ p ∈ passes (compile_to_offloads w ir config verbose vectorize grad ad_use_stack
            ⟨t, []⟩).2.trace,
          p ≠ Pass.loop_vectorize ∧ ∀ a b, p ≠ Pass.vector_split a b) := by
  obtain ⟨⟨post, hp⟩, hfull⟩ :=
    stage1_passes_shape w ir config verbose vectorize grad ad_use_stack t hev
  refine ⟨⟨post, hp⟩, ?_, ?_⟩
  · intro h
    obtain ⟨h1, h2⟩ := hfull h
    refine ⟨h1, h2, ?_⟩
    rw [h2]
    exact stage1_reference_gates _ config vectorize grad ad_use_stack
  · intro hv p hmem
    subst hv
    have hin : p ∈ stage1_reference (w.arch_is_cpu config.arch || config.arch == w.cuda)
        config false grad ad_use_stack := by
      rw [hp]; exact List.mem_append_left _ hmem
    have hc := List.all_eq_true.mp
      (stage1_reference_no_vectorize _ config grad ad_use_stack) p hin
    cases p <;> simp [is_vectorize] at hc ⊢

/-- C4, witness: the example kernel with `vectorize` and `grad` set. -/
theorem stage1_general_path_witness :
    (demo_ir false).get_kernel.is_evaluator = false ∧
      no_step_failure (compile_to_offloads demo_world (demo_ir false) demo_config true true
        true true ⟨0, []⟩).1 = true ∧
      passes (compile_to_offloads demo_world (demo_ir false) demo_config true true true true
        ⟨0, []⟩).2.trace =
        [Pass.reverse_segments, Pass.lower_ast, Pass.type_check, Pass.loop_vectorize,
          Pass.vector_split 4 false, Pass.bit_loop_vectorize, Pass.type_check,
          Pass.full_simplify false, Pass.demote_atomics, Pass.full_simplify false,
          Pass.auto_diff true, Pass.full_simplify false, Pass.flag_access,
          Pass.full_simplify false, Pass.offload, Pass.flag_access,
          Pass.full_simplify false] :=
  ⟨rfl, rfl,
    ((stage1_general_path demo_world (demo_ir false) demo_config true true true true 0
      rfl).2.1 rfl).2.1⟩

theorem unique_occurrence {α : Type} (py : α → Bool) (A B pre post : List α) (x y : α)
    (h : A ++ x :: B = pre ++ y :: post) (hy : py y = true)
    (hA : A.all (fun e => !py e) = true) (hB : B.all (fun e => !py e) = true) :
    pre = A ∧ y = x ∧ post = B := by
  induction A generalizing pre with
  | nil =>
    cases pre with
    | nil =>
      simp only [List.nil_append, List.cons.injEq] at h
      exact ⟨rfl, h.1.symm, h.2.symm⟩
    | cons z pre1 =>
      simp only [List.nil_append, List.cons_append, List.cons.injEq] at h
      have hmem : y ∈ B := by rw [h.2]; simp
      have := List.all_eq_true.mp hB y hmem
      simp [hy] at this
  | cons a A1 ih =>
    simp only [List.all_cons, Bool.and_eq_true] at hA
    cases pre with
    | nil =>
      simp only [List.nil_append, List.cons_append, List.cons.injEq] at h
      have := hA.1
      rw [h.1, hy] at this
      simp at this
    | cons z pre1 =>
      simp only [List.cons_append, List.cons.injEq] at h
      obtain ⟨h1, h2, h3⟩ := ih pre1 h.2 hA.2
      exact ⟨by rw [h.1, h1], h2, h3⟩

theorem mem_passes (p : Pass) (l : List Event) : p ∈ passes l ↔ Event.pass p ∈ l := by
  induction l with
  | nil => simp [passes]
  | cons e rest ih => cases e <;> simp [passes, ih]

theorem exec_trace_extends (w : World Arch T) (verbose : Bool) (ir : IRNode Arch)
    (plan : List Instr) (s : PipeState T) :
    ∃ l, (exec w verbose ir plan s).2.trace = s.trace ++ l := by
  rcases h : exec w verbose ir plan s with ⟨r, s1⟩
  cases r with
  | ok u => exact ⟨_, (exec_ok w verbose ir plan s s1 u h).1⟩
  | error f =>
    obtain ⟨pre, i, post, -, h2, -⟩ := exec_error w verbose ir plan s s1 f h
    exact ⟨_, h2⟩

/-- The first pass of a line that starts with a tracer call and a pass is
invoked in every run. -/
theorem exec_first_pass (w : World Arch T) (verbose : Bool) (ir : IRNode Arch)
    (label : String) (p : Pass) (rest : List Instr) (s : PipeState T) :
    Event.pass p ∈
      (exec w verbose ir (Instr.print label :: Instr.pass p :: rest) s).2.trace := by
  rw [exec_cons, exec_cons, Pipe.bind_apply]
  rcases h1 : exec_instr w verbose ir (Instr.print label) s with ⟨r1, s1⟩
  cases r1 with
  | error e =>
    cases verbose <;> simp [exec_instr, make_pass_printer, Pipe.pure_apply] at h1
  | ok u1 =>
    simp only [Pipe.bind_apply]
    rcases h2 : exec_instr w verbose ir (Instr.pass p) s1 with ⟨r2, s2⟩
    cases r2 with
    | error e =>
      have := (exec_instr_error w verbose ir _ s1 s2 e h2).1
      simp [this, Instr.events]
    | ok u2 =>
      have h3 := (exec_instr_ok w verbose ir _ s1 s2 u2 h2).1
      obtain ⟨l, hl⟩ := exec_trace_extends w verbose ir rest s2
      simp only [hl, h3, Instr.events]
      simp

theorem stage1_reference_grad (g : Bool) (config : CompileConfig Arch)
    (vectorize ad_use_stack : Bool) :
    stage1_reference g config vectorize true ad_use_stack =
        stage1_before_auto_diff g config vectorize ++
          Pass.auto_diff ad_use_stack :: stage1_after_auto_diff config ∧
      (stage1_before_auto_diff g config vectorize).all (fun e => !is_auto_diff e) = true ∧
      (stage1_after_auto_diff config).all (fun e => !is_auto_diff e) = true ∧
      Pass.demote_atomics ∈ stage1_before_auto_diff g config vectorize ∧
      (stage1_before_auto_diff g config vectorize ++
          Pass.auto_diff ad_use_stack :: stage1_after_auto_diff config).tail.all
        (fun e => match e with
          | Pass.reverse_segments => false
          | _ => true) = true := by
  unfold stage1_reference stage1_before_auto_diff stage1_after_auto_diff
  generalize config.check_out_of_bound = oob
  generalize config.cfg_optimization = cfgo
  cases g <;> cases vectorize <;> cases oob <;> cases cfgo <;>
    exact ⟨rfl, rfl, rfl, by simp, rfl⟩

theorem stage1_plan_grad_head (ev g : Bool) (config : CompileConfig Arch)
    (vectorize ad_use_stack : Bool) :
    ∃ rest, stage1_plan ev g config vectorize true ad_use_stack =
      Instr.print "Initial IR" :: Instr.pass Pass.reverse_segments :: rest :=
  ⟨_, rfl⟩

theorem stage1_no_gradient_passes (ev g : Bool) (config : CompileConfig Arch)
    (vectorize ad_use_stack : Bool) :
    (passes (plan_calls (stage1_plan ev g config vectorize false ad_use_stack))).all
      (fun p => !gradient_only p) = true := by
  unfold stage1_plan
  generalize config.check_out_of_bound = oob
  generalize config.cfg_optimization = cfgo
  cases ev <;> cases g <;> cases vectorize <;> cases oob <;> cases cfgo <;> rfl


/-- C6: in every run of `compile_to_offloads` with `grad = true` on a kernel
that is not an evaluator, `reverse_segments` is the first pass invoked and is
invoked exactly once, hence strictly before `lower_ast`; every invocation of
`auto_diff` has the argument `ad_use_stack`, is preceded by an invocation of
`demote_atomics` and is the only one; when no pass and no oracle call fails,
`lower_ast` and `auto_diff ad_use_stack` are invoked.  With `grad = false`
none of `reverse_segments`, `demote_atomics`, `auto_diff` is invoked. -/
theorem gradient_ordering (w : World Arch T) (ir : IRNode Arch) (config : CompileConfig Arch)
    (verbose vectorize ad_use_stack : Bool) (t : T) :
    (ir.get_kernel.is_evaluator = false →
      (∃ rest, passes (compile_to_offloads w ir config verbose vectorize true ad_use_stack
          ⟨t, []⟩).2.trace = Pass.reverse_segments :: rest ∧ Pass.reverse_segments ∉ rest) ∧
      (∀ pre post, passes (compile_to_offloads w ir config verbose vectorize true ad_use_stack
          ⟨t, []⟩).2.trace = pre ++ Pass.lower_ast :: post → Pass.reverse_segments ∈ pre) ∧
      (∀ pre b post, passes (compile_to_offloads w ir config verbose vectorize true
          ad_use_stack ⟨t, []⟩).2.trace = pre ++ Pass.auto_diff b :: post →
        b = ad_use_stack ∧ Pass.demote_atomics ∈ pre ∧
          (∀ c, Pass.auto_diff c ∉ pre) ∧ (∀ c, Pass.auto_diff c ∉ post)) ∧
      (no_step_failure
          (compile_to_offloads w ir config verbose vectorize true ad_use_stack ⟨t, []⟩).1 =
            true →
        Pass.lower_ast ∈ passes (compile_to_offloads w ir config verbose vectorize true
          ad_use_stack ⟨t, []⟩).2.trace ∧
        Pass.auto_diff ad_use_stack ∈ passes (compile_to_offloads w ir config verbose
          vectorize true ad_use_stack ⟨t, []⟩).2.trace)) ∧
    (∀ p ∈ passes (compile_to_offloads w ir config verbose vectorize false ad_use_stack
        ⟨t, []⟩).2.trace,
      p ≠ Pass.reverse_segments ∧ p ≠ Pass.demote_atomics ∧ ∀ b, p ≠ Pass.auto_diff b) := by
  constructor
  · intro hev
    obtain ⟨⟨post0, hp⟩, hfull⟩ :=
      stage1_passes_shape w ir config verbose vectorize true ad_use_stack t hev
    obtain ⟨href, hA, hB, hdem, htail⟩ := stage1_reference_grad
      (w.arch_is_cpu config.arch || config.arch == w.cuda) config vectorize ad_use_stack
    have hfirst : Pass.reverse_segments ∈ passes (compile_to_offloads w ir config verbose
        vectorize true ad_use_stack ⟨t, []⟩).2.trace := by
      rw [mem_passes, compile_to_offloads_eq_exec]
      obtain ⟨rest, hrest⟩ := stage1_plan_grad_head ir.get_kernel.is_evaluator
        (w.arch_is_cpu config.arch || config.arch == w.cuda) config vectorize ad_use_stack
      rw [hrest]
      exact exec_first_pass w verbose ir _ _ rest _
    generalize passes (compile_to_offloads w ir config verbose vectorize true ad_use_stack
      ⟨t, []⟩).2.trace = ps at hp hfull hfirst ⊢
    rw [href] at hp
    have hhead : ∃ rest, ps = Pass.reverse_segments :: rest ∧ Pass.reverse_segments ∉ rest := by
      cases ps with
      | nil => simp at hfirst
      | cons a rest =>
        have h1 : stage1_before_auto_diff (w.arch_is_cpu config.arch || config.arch == w.cuda)
            config vectorize = Pass.reverse_segments :: (stage1_before_auto_diff
              (w.arch_is_cpu config.arch || config.arch == w.cuda) config vectorize).tail :=
          rfl
        rw [h1] at hp
        simp only [List.cons_append, List.cons.injEq] at hp
        refine ⟨rest, by rw [← hp.1], ?_⟩
        intro hmem
        rw [h1] at htail
        simp only [List.cons_append, List.tail_cons] at htail
        rw [hp.2] at htail
        have := List.all_eq_true.mp htail Pass.reverse_segments (List.mem_append_left _ hmem)
        simp at this
    refine ⟨hhead, ?_, ?_, ?_⟩
    · intro pre post hdec
      obtain ⟨rest, hps, -⟩ := hhead
      rw [hps] at hdec
      cases pre with
      | nil => simp at hdec
      | cons a pre1 =>
        simp only [List.cons_append, List.cons.injEq] at hdec
        rw [← hdec.1]
        simp
    · intro pre b post hdec
      rw [hdec, List.append_assoc, List.cons_append] at hp
      obtain ⟨h1, h2, h3⟩ := unique_occurrence is_auto_diff _ _ pre (post ++ post0) _
        (Pass.auto_diff b) hp rfl hA hB
      simp only [Pass.auto_diff.injEq] at h2
      refine ⟨h2, by rw [h1]; exact hdem, ?_, ?_⟩
      · intro c hc
        rw [h1] at hc
        have := List.all_eq_true.mp hA _ hc
        simp [is_auto_diff] at this
      · intro c hc
        have := List.all_eq_true.mp hB (Pass.auto_diff c)
          (by rw [← h3]; exact List.mem_append_left _ hc)
        simp [is_auto_diff] at this
    · intro h
      obtain ⟨-, h2⟩ := hfull h
      rw [h2, href]
      constructor
      · apply List.mem_append_left
        simp [stage1_before_auto_diff]
      · simp
  · intro p hmem
    rw [compile_to_offloads_eq_exec] at hmem
    obtain ⟨pre, post, h1, h2⟩ := exec_calls_split w verbose ir
      (stage1_plan ir.get_kernel.is_evaluator
        (w.arch_is_cpu config.arch || config.arch == w.cuda) config vectorize false
        ad_use_stack) t
    rw [← passes_calls, h2] at hmem
    have hin : p ∈ passes (plan_calls (stage1_plan ir.get_kernel.is_evaluator
        (w.arch_is_cpu config.arch || config.arch == w.cuda) config vectorize false
        ad_use_stack)) := by
      rw [h1, plan_calls_append, passes_append]
      exact List.mem_append_left _ hmem
    have hc := List.all_eq_true.mp (stage1_no_gradient_passes _ _ config vectorize
      ad_use_stack) p hin
    cases p <;> simp [gradient_only] at hc ⊢

/-- C6, witness: the example kernel with `grad = true`. -/
theorem gradient_ordering_witness :
    (demo_ir false).get_kernel.is_evaluator = false ∧
      no_step_failure (compile_to_offloads demo_world (demo_ir false) demo_config false false
        true true ⟨0, []⟩).1 = true ∧
      Pass.auto_diff true ∈ passes (compile_to_offloads demo_world (demo_ir false) demo_config
        false false true true ⟨0, []⟩).2.trace :=
  ⟨rfl, rfl,
    (((gradient_ordering demo_world (demo_ir false) demo_config false false true 0).1
      rfl).2.2.2 rfl).2⟩


/-! ## C5: the sequence of Stage 2 -/


theorem stage2_plan_calls (q qo : Bool) (config : CompileConfig Arch)
    (lower_global_access make_thread_local make_block_local : Bool) (m : BitStructMap) :
    plan_calls (stage2_plan q qo config lower_global_access make_thread_local
        make_block_local m) =
      stage2_reference q qo config lower_global_access make_thread_local make_block_local m := by
  have hcons : ∀ (i : Instr) (rest : List Instr),
      plan_calls (i :: rest) = i.calls ++ plan_calls rest := fun _ _ => rfl
  have hnil : plan_calls [] = [] := rfl
  simp only [stage2_plan, stage2_head, stage2_tail, stage2_reference, plan_calls_append,
    apply_ite plan_calls, hcons, hnil, Instr.calls, List.nil_append, List.cons_append,
    List.append_nil, List.append_assoc]

theorem stage2_plan_holds (q qo : Bool) (config : CompileConfig Arch)
    (lower_global_access make_thread_local make_block_local : Bool) (m : BitStructMap) :
    (stage2_plan q qo config lower_global_access make_thread_local
        make_block_local m).all Instr.holds = true := by
  simp only [stage2_plan, stage2_head, stage2_tail, List.all_append, Bool.and_eq_true]
  repeat' constructor
  all_goals first | rfl | (split <;> rfl)


theorem stage2_reference_no_lowering (q qo : Bool) (config : CompileConfig Arch)
    (make_thread_local make_block_local : Bool) (m : BitStructMap) :
    (passes (stage2_reference q qo config false make_thread_local make_block_local m)).all
      (fun p => !lowering_only p) = true := by
  have h1 : ∀ (p : Pass) (r : List Event), passes (Event.pass p :: r) = p :: passes r :=
    fun _ _ => rfl
  have h2 : ∀ (r : List Event), passes (Event.verify :: r) = passes r := fun _ => rfl
  have h3 : ∀ (x : BitStructMap) (r : List Event),
      passes (Event.gather_uniquely_accessed_bit_structs x :: r) = passes r := fun _ _ => rfl
  have h4 : passes [] = [] := rfl
  simp only [stage2_reference, passes_append, apply_ite passes, h1, h2, h3, h4,
    List.all_append, Bool.and_eq_true, Bool.false_eq_true, if_false]
  repeat' constructor
  all_goals first | rfl | (split <;> rfl)

theorem stage2_reference_full_simplify (q qo : Bool) (config : CompileConfig Arch)
    (lower_global_access make_thread_local make_block_local : Bool) (m : BitStructMap) :
    (passes (stage2_reference q qo config lower_global_access make_thread_local
        make_block_local m)).all
      (fun p => !full_simplify_other lower_global_access p) = true := by
  have h1 : ∀ (p : Pass) (r : List Event), passes (Event.pass p :: r) = p :: passes r :=
    fun _ _ => rfl
  have h2 : ∀ (r : List Event), passes (Event.verify :: r) = passes r := fun _ => rfl
  have h3 : ∀ (x : BitStructMap) (r : List Event),
      passes (Event.gather_uniquely_accessed_bit_structs x :: r) = passes r := fun _ _ => rfl
  have h4 : passes [] = [] := rfl
  simp only [stage2_reference, passes_append, apply_ite passes, h1, h2, h3, h4,
    List.all_append, Bool.and_eq_true]
  repeat' constructor
  all_goals first | rfl | (split <;> rfl) | (cases lower_global_access <;> rfl)

/-- The driver calls of a run of a straight line without violated assertion are
an initial segment of the calls of the line, and all of them when no pass and
no oracle call fails. -/
theorem exec_calls_shape (w : World Arch T) (verbose : Bool) (ir : IRNode Arch)
    (plan : List Instr) (t : T) (ref : List Event) (hall : plan.all Instr.holds = true)
    (href : plan_calls plan = ref) :
    (∃ post, ref = calls (exec w verbose ir plan ⟨t, []⟩).2.trace ++ post) ∧
      (no_step_failure (exec w verbose ir plan ⟨t, []⟩).1 = true →
        (exec w verbose ir plan ⟨t, []⟩).1 = Except.ok () ∧
          calls (exec w verbose ir plan ⟨t, []⟩).2.trace = ref) := by
  constructor
  · obtain ⟨post, hp⟩ := exec_calls_reach w verbose ir plan t
    rw [takeWhile_holds_all plan hall, href] at hp
    exact ⟨post, hp⟩
  · intro h
    obtain ⟨h1, h2⟩ := exec_no_step_failure w verbose ir plan t h
    rw [hall] at h1
    rw [takeWhile_holds_all plan hall, href] at h2
    exact ⟨h1, h2⟩

/-- C5: for every combination of the flags and of the configuration, the
pass, oracle and analysis calls of `offload_to_executable` are an initial
segment of the reference sequence, and the whole of it, with a normal return,
when no pass and no oracle call fails.  None of `lower_access`, `die`,
`flag_access` is invoked when `lower_global_access` is false, and
`full_simplify` is only ever invoked with the argument
`lower_global_access`. -/
theorem stage2_sequence (w : World Arch T) (ir : IRNode Arch) (config : CompileConfig Arch)
    (verbose lower_global_access make_thread_local make_block_local : Bool) (t : T) :
    (∃ post,
        stage2_reference (w.quant_supported config.arch)
            ir.get_config.quant_opt_atomic_demotion config lower_global_access
            make_thread_local make_block_local
            (stage2_map w ir config verbose make_thread_local make_block_local ⟨t, []⟩) =
          calls (offload_to_executable w ir config verbose lower_global_access
            make_thread_local make_block_local ⟨t, []⟩).2.trace ++ post) ∧
      (no_step_failure (offload_to_executable w ir config verbose lower_global_access
          make_thread_local make_block_local ⟨t, []⟩).1 = true →
        (offload_to_executable w ir config verbose lower_global_access make_thread_local
            make_block_local ⟨t, []⟩).1 = Except.ok () ∧
          calls (offload_to_executable w ir config verbose lower_global_access
              make_thread_local make_block_local ⟨t, []⟩).2.trace =
            stage2_reference (w.quant_supported config.arch)
              ir.get_config.quant_opt_atomic_demotion config lower_global_access
              make_thread_local make_block_local
              (stage2_map w ir config verbose make_thread_local make_block_local ⟨t, []⟩)) ∧
      (lower_global_access = false →
        ∀ p ∈ passes (offload_to_executable w ir config verbose lower_global_access
            make_thread_local make_block_local ⟨t, []⟩).2.trace,
          (∀ b, p ≠ Pass.lower_access b) ∧ p ≠ Pass.die ∧ p ≠ Pass.flag_access) ∧
      (∀ b, Pass.full_simplify b ∈ passes (offload_to_executable w ir config verbose
          lower_global_access make_thread_local make_block_local ⟨t, []⟩).2.trace →
        b = lower_global_access) := by
  rw [offload_to_executable_eq_exec]
  obtain ⟨⟨post, hp⟩, hfull⟩ := exec_calls_shape w verbose ir _ t _
    (stage2_plan_holds (w.quant_supported config.arch) ir.get_config.quant_opt_atomic_demotion
      config lower_global_access make_thread_local make_block_local
      (stage2_map w ir config verbose make_thread_local make_block_local ⟨t, []⟩))
    (stage2_plan_calls (w.quant_supported config.arch) ir.get_config.quant_opt_atomic_demotion
      config lower_global_access make_thread_local make_block_local
      (stage2_map w ir config verbose make_thread_local make_block_local ⟨t, []⟩))
  have hsub : ∀ p, p ∈ passes (exec w verbose ir (stage2_plan (w.quant_supported config.arch)
      ir.get_config.quant_opt_atomic_demotion config lower_global_access make_thread_local
      make_block_local (stage2_map w ir config verbose make_thread_local make_block_local
        ⟨t, []⟩)) ⟨t, []⟩).2.trace →
      p ∈ passes (stage2_reference (w.quant_supported config.arch)
        ir.get_config.quant_opt_atomic_demotion config lower_global_access
        make_thread_local make_block_local
        (stage2_map w ir config verbose make_thread_local make_block_local ⟨t, []⟩)) := by
    intro p hmem
    rw [hp, passes_append, passes_calls]
    exact List.mem_append_left _ hmem
  refine ⟨⟨post, hp⟩, hfull, ?_, ?_⟩
  · intro hl p hmem
    have hin := hsub p hmem
    rw [hl] at hin
    have hc := List.all_eq_true.mp (stage2_reference_no_lowering _ _ config make_thread_local
      make_block_local _) p hin
    cases p <;> simp [lowering_only] at hc ⊢
  · intro b hmem
    have hc := List.all_eq_true.mp (stage2_reference_full_simplify _ _ config
      lower_global_access make_thread_local make_block_local _) _ (hsub _ hmem)
    simpa [full_simplify_other] using hc

/-- C5, witness: the example kernel with access lowering and thread-local
caching. -/
theorem stage2_sequence_witness :
    no_step_failure (offload_to_executable demo_world (demo_ir false) demo_config false true
        true false ⟨0, []⟩).1 = true ∧
      calls (offload_to_executable demo_world (demo_ir false) demo_config false true true
        false ⟨0, []⟩).2.trace =
        [Event.verify, Event.pass Pass.demote_atomics, Event.verify,
          Event.pass Pass.make_thread_local, Event.pass Pass.demote_atomics, Event.verify,
          Event.pass Pass.remove_range_assumption, Event.pass Pass.remove_loop_unique,
          Event.verify, Event.pass (Pass.lower_access true), Event.verify,
          Event.pass Pass.die, Event.verify, Event.pass Pass.flag_access, Event.verify,
          Event.pass Pass.demote_operations, Event.pass (Pass.full_simplify true),
          Event.pass (Pass.optimize_bit_struct_stores []), Event.pass Pass.type_check,
          Event.verify] :=
  ⟨rfl,
    ((stage2_sequence demo_world (demo_ir false) demo_config false true true false 0).2.1
      rfl).2⟩


/-! ## C7, C8: the orchestrator -/

theorem compile_to_executable_eq_spec (w : World Arch T) (ir : IRNode Arch)
    (config : CompileConfig Arch)
    (vectorize grad ad_use_stack verbose lower_global_access make_thread_local
      make_block_local : Bool) :
    compile_to_executable w ir config vectorize grad ad_use_stack verbose lower_global_access
        make_thread_local make_block_local =
      orchestrator_spec w ir config vectorize grad ad_use_stack verbose lower_global_access
        make_thread_local make_block_local := by
  funext s
  unfold compile_to_executable orchestrator_spec
  rw [Pipe.bind_apply]
  rcases compile_to_offloads w ir config verbose vectorize grad ad_use_stack s with ⟨r, s1⟩
  cases r <;> rfl

/-- The body of `compile_to_executable`, run from state `s`, is the straight
line `pipeline_plan` with the map that the run computes. -/
theorem compile_to_executable_eq_exec (w : World Arch T) (ir : IRNode Arch)
    (config : CompileConfig Arch)
    (vectorize grad ad_use_stack verbose lower_global_access make_thread_local
      make_block_local : Bool) (s : PipeState T) :
    compile_to_executable w ir config vectorize grad ad_use_stack verbose lower_global_access
        make_thread_local make_block_local s =
      exec w verbose ir
        (pipeline_plan ir.get_kernel.is_evaluator
          (w.arch_is_cpu config.arch || config.arch == w.cuda)
          (w.quant_supported config.arch) ir.get_config.quant_opt_atomic_demotion config
          vectorize grad ad_use_stack lower_global_access make_thread_local make_block_local
          (pipeline_map w ir config vectorize grad ad_use_stack verbose make_thread_local
            make_block_local s)) s := by
  rw [compile_to_executable_eq_spec]
  unfold orchestrator_spec pipeline_plan pipeline_map
  rw [exec_append, Pipe.bind_apply, ← compile_to_offloads_eq_exec]
  rcases h : compile_to_offloads w ir config verbose vectorize grad ad_use_stack s with ⟨r, s1⟩
  cases r with
  | error e => rfl
  | ok u => exact offload_to_executable_eq_exec w ir config verbose _ _ _ s1

theorem pipeline_plan_holds (ev g q qo : Bool) (config : CompileConfig Arch)
    (vectorize grad ad_use_stack lower_global_access make_thread_local make_block_local : Bool)
    (m : BitStructMap) (h : ¬ (ev = true ∧ grad = true)) :
    (pipeline_plan ev g q qo config vectorize grad ad_use_stack lower_global_access
      make_thread_local make_block_local m).all Instr.holds = true := by
  unfold pipeline_plan
  rw [List.all_append, stage2_plan_holds, Bool.and_true]
  cases ev with
  | false => exact (stage1_general_calls g config vectorize grad ad_use_stack).1
  | true =>
    cases grad with
    | false => exact (stage1_evaluator_calls g config vectorize ad_use_stack).1
    | true => exact absurd ⟨rfl, rfl⟩ h

theorem pipeline_plan_violated (g q qo : Bool) (config : CompileConfig Arch)
    (vectorize ad_use_stack lower_global_access make_thread_local make_block_local : Bool)
    (m : BitStructMap) :
    (pipeline_plan true g q qo config vectorize true ad_use_stack lower_global_access
      make_thread_local make_block_local m).all Instr.holds = false := by
  unfold pipeline_plan
  rw [List.all_append, (stage1_evaluator_grad_calls g config vectorize ad_use_stack).1,
    Bool.false_and]

theorem replay_step_fails (w : World Arch T) (verbose : Bool) (ir : IRNode Arch)
    (pre : List Instr) (i : Instr) (t1 : T) (f : Failure)
    (hf : Fails w t1 i f)
    (hs : f.is_step = true) :
    ∃ e, nominal verbose ir (pre ++ [i]) = nominal verbose ir pre ++ [e] ∧
      replay_event w e t1 = none ∧
      f.call = some e := by
  cases f with
  | assertion_failed => simp [Failure.is_step] at hs
  | pass_failed p =>
    cases i with
    | pass q =>
      obtain ⟨hq, hap⟩ : p = q ∧ _ := hf
      subst hq
      exact ⟨Event.pass p, by simp [nominal_append, nominal, Instr.events], hap, rfl⟩
    | verify => exact absurd hf (by simp [Fails])
    | gather m => exact absurd hf (by simp [Fails])
    | print label => exact absurd hf (by simp [Fails])
    | assert b => exact absurd hf (by simp [Fails])
  | verify_failed =>
    cases i with
    | verify =>
      have hv : w.verify t1 = false := hf
      exact ⟨Event.verify, by simp [nominal_append, nominal, Instr.events],
        by simp [replay_event, hv], rfl⟩
    | pass q => exact absurd hf (by simp [Fails])
    | gather m => exact absurd hf (by simp [Fails])
    | print label => exact absurd hf (by simp [Fails])
    | assert b => exact absurd hf (by simp [Fails])

/-- Fail-fast for a straight line: a run aborted by a pass or by the oracle
made that call last, on the tree that the calls before it produced, all of
them with success. -/
theorem exec_fail_fast (w : World Arch T) (verbose : Bool) (ir : IRNode Arch)
    (plan : List Instr) (t : T) (f : Failure)
    (h : (exec w verbose ir plan ⟨t, []⟩).1 = Except.error f) (hs : f.is_step = true) :
    ∃ pre e, (exec w verbose ir plan ⟨t, []⟩).2.trace = pre ++ [e] ∧
      replay w pre t = some (exec w verbose ir plan ⟨t, []⟩).2.tree ∧
      replay_event w e (exec w verbose ir plan ⟨t, []⟩).2.tree = none ∧
      f.call = some e := by
  rcases hr : exec w verbose ir plan ⟨t, []⟩ with ⟨r, s1⟩
  rw [hr] at h
  simp only at h
  subst h
  obtain ⟨pre, i, post, -, h2, h3, h4, -⟩ := exec_error w verbose ir plan _ s1 f hr
  obtain ⟨e, he1, he2, he3⟩ := replay_step_fails w verbose ir pre i s1.tree f h4 hs
  exact ⟨nominal verbose ir pre, e, by simp [h2, he1], h3, he2, he3⟩

/-- A run of a straight line returns normally exactly when every call of its
trace succeeds and the line holds no violated assertion that the run
reaches. -/
theorem exec_ok_iff (w : World Arch T) (verbose : Bool) (ir : IRNode Arch)
    (plan : List Instr) (t : T) (hall : plan.all Instr.holds = true) :
    (exec w verbose ir plan ⟨t, []⟩).1 = Except.ok () ↔
      (replay w (exec w verbose ir plan ⟨t, []⟩).2.trace t).isSome = true := by
  rcases hr : exec w verbose ir plan ⟨t, []⟩ with ⟨r, s1⟩
  cases r with
  | ok u =>
    obtain ⟨h1, h2, -⟩ := exec_ok w verbose ir plan _ s1 u hr
    simp only [h1, List.nil_append, h2, Option.isSome_some]
  | error f =>
    obtain ⟨pre, i, post, h1, h2, h3, h4, -⟩ := exec_error w verbose ir plan _ s1 f hr
    simp only [false_iff, reduceCtorEq]
    cases hs : f.is_step with
    | true =>
      obtain ⟨e, he1, he2, -⟩ := replay_step_fails w verbose ir pre i s1.tree f h4 hs
      simp only [h2, List.nil_append, he1, replay_append, h3, replay, he2]
      simp
    | false =>
      cases f with
      | assertion_failed =>
        cases i with
        | assert b =>
          have hb : b = false := h4
          rw [h1, hb] at hall
          simp [Instr.holds] at hall
        | pass p => exact absurd h4 (by simp [Fails])
        | verify => exact absurd h4 (by simp [Fails])
        | gather m => exact absurd h4 (by simp [Fails])
        | print label => exact absurd h4 (by simp [Fails])
      | pass_failed p => simp [Failure.is_step] at hs
      | verify_failed => simp [Failure.is_step] at hs


/-- The first failing call of a trace is determined by the trace. -/
theorem replay_first_failure (w : World Arch T) (a a1 b b1 : List Event) (x x1 : Event)
    (t u u1 : T) (h : a ++ x :: b = a1 ++ x1 :: b1)
    (ha : replay w a t = some u) (hx : replay_event w x u = none)
    (ha1 : replay w a1 t = some u1) (hx1 : replay_event w x1 u1 = none) :
    a = a1 ∧ x = x1 ∧ b = b1 := by
  induction a generalizing a1 t with
  | nil =>
    simp only [replay, Option.some.injEq] at ha
    subst ha
    cases a1 with
    | nil =>
      simp only [List.nil_append, List.cons.injEq] at h
      exact ⟨rfl, h.1, h.2⟩
    | cons y a2 =>
      simp only [List.nil_append, List.cons_append, List.cons.injEq] at h
      simp only [replay] at ha1
      rw [← h.1, hx] at ha1
      simp at ha1
  | cons y a2 ih =>
    cases a1 with
    | nil =>
      simp only [List.nil_append, List.cons_append, List.cons.injEq] at h
      simp only [replay, Option.some.injEq] at ha1
      subst ha1
      simp only [replay] at ha
      rw [h.1, hx1] at ha
      simp at ha
    | cons y1 a3 =>
      simp only [List.cons_append, List.cons.injEq] at h
      obtain ⟨hy, htail⟩ := h
      subst hy
      simp only [replay] at ha ha1
      cases hy : replay_event w y t with
      | none => rw [hy] at ha; simp at ha
      | some t2 =>
        rw [hy] at ha ha1
        obtain ⟨h1, h2, h3⟩ := ih a3 t2 htail ha ha1
        exact ⟨by rw [h1], h2, h3⟩

/-- Fail-fast for a straight line, read from the trace: a call of the trace
that fails, after calls that succeeded, is the last call, and the run ends
with its failure. -/
theorem exec_failing_call_last (w : World Arch T) (verbose : Bool) (ir : IRNode Arch)
    (plan : List Instr) (t t1 : T) (pre post : List Event) (e : Event)
    (h : (exec w verbose ir plan ⟨t, []⟩).2.trace = pre ++ e :: post)
    (hpre : replay w pre t = some t1) (he : replay_event w e t1 = none) :
    post = [] ∧ ∃ f, (exec w verbose ir plan ⟨t, []⟩).1 = Except.error f ∧ f.call = some e := by
  have hnone : replay w (pre ++ e :: post) t = none := by
    rw [replay_append, hpre]
    simp only [replay, he]
  rcases hr : exec w verbose ir plan ⟨t, []⟩ with ⟨r, s1⟩
  rw [hr] at h
  simp only at h
  cases r with
  | ok u =>
    obtain ⟨h1, h2, -⟩ := exec_ok w verbose ir plan _ s1 u hr
    simp only [List.nil_append] at h1
    rw [← h1, h, hnone] at h2
    simp at h2
  | error f =>
    obtain ⟨pre0, i, post0, -, h2, h3, h4, -⟩ := exec_error w verbose ir plan _ s1 f hr
    simp only [List.nil_append] at h2
    cases hs : f.is_step with
    | false =>
      exfalso
      cases f with
      | assertion_failed =>
        cases i with
        | assert b =>
          rw [nominal_append] at h2
          simp only [nominal, Instr.events, List.append_nil] at h2
          rw [← h2, h, hnone] at h3
          simp at h3
        | pass p => exact absurd h4 (by simp [Fails])
        | verify => exact absurd h4 (by simp [Fails])
        | gather m => exact absurd h4 (by simp [Fails])
        | print label => exact absurd h4 (by simp [Fails])
      | pass_failed p => simp [Failure.is_step] at hs
      | verify_failed => simp [Failure.is_step] at hs
    | true =>
      obtain ⟨e0, he1, he2, he3⟩ := replay_step_fails w verbose ir pre0 i s1.tree f h4 hs
      rw [he1, h] at h2
      have hdec : pre ++ e :: post = nominal verbose ir pre0 ++ e0 :: [] := h2
      obtain ⟨-, hx, hb⟩ := replay_first_failure w pre (nominal verbose ir pre0) post [] e e0
        t t1 s1.tree hdec hpre he h3 he2
      exact ⟨hb, f, rfl, by rw [hx]; exact he3⟩

/-- C8, counterexample: an evaluator kernel compiled with `grad = true` in a
world where every pass and every oracle call succeeds.  Every call of the
trace succeeds, yet the run does not: it is aborted by `TI_ASSERT(!grad)`,
which is neither a pass nor an oracle call. -/
theorem fail_fast_counterexample :
    (replay demo_world
        (compile_to_executable demo_world (demo_ir true) demo_config false true false false
          false false false ⟨0, []⟩).2.trace 0).isSome = true ∧
      (compile_to_executable demo_world (demo_ir true) demo_config false true false false
        false false false ⟨0, []⟩).1 = Except.error Failure.assertion_failed :=
  ⟨by decide, rfl⟩

/-- C8, amended: in every run of `compile_to_executable`, a failure of
`compile_to_offloads` is the outcome of the run and `offload_to_executable`
is not entered; a run aborted by a pass or by the oracle made that call last,
after calls that all succeeded; a call of the trace that fails is the last
call of the trace and its failure is the outcome of the run; and the run
returns normally if and only if
every call of its trace succeeds and the kernel is not an evaluator compiled
with `grad = true`. -/
theorem fail_fast_amended (w : World Arch T) (ir : IRNode Arch) (config : CompileConfig Arch)
    (vectorize grad ad_use_stack verbose lower_global_access make_thread_local
      make_block_local : Bool) (t : T) :
    (∀ e s1, compile_to_offloads w ir config verbose vectorize grad ad_use_stack ⟨t, []⟩ =
        (Except.error e, s1) →
      compile_to_executable w ir config vectorize grad ad_use_stack verbose
        lower_global_access make_thread_local make_block_local ⟨t, []⟩ =
        (Except.error e, s1)) ∧
    (∀ f, (compile_to_executable w ir config vectorize grad ad_use_stack verbose
        lower_global_access make_thread_local make_block_local ⟨t, []⟩).1 = Except.error f →
      f.is_step = true →
      ∃ pre e, f.call = some e ∧
        (compile_to_executable w ir config vectorize grad ad_use_stack verbose
          lower_global_access make_thread_local make_block_local ⟨t, []⟩).2.trace =
          pre ++ [e] ∧
        replay w pre t = some (compile_to_executable w ir config vectorize grad ad_use_stack
          verbose lower_global_access make_thread_local make_block_local ⟨t, []⟩).2.tree ∧
        replay_event w e (compile_to_executable w ir config vectorize grad ad_use_stack
          verbose lower_global_access make_thread_local make_block_local ⟨t, []⟩).2.tree =
          none) ∧
    (∀ pre e post t1,
      (compile_to_executable w ir config vectorize grad ad_use_stack verbose
        lower_global_access make_thread_local make_block_local ⟨t, []⟩).2.trace =
        pre ++ e :: post →
      replay w pre t = some t1 → replay_event w e t1 = none →
      post = [] ∧
        ∃ f, (compile_to_executable w ir config vectorize grad ad_use_stack verbose
          lower_global_access make_thread_local make_block_local ⟨t, []⟩).1 =
            Except.error f ∧ f.call = some e) ∧
    ((compile_to_executable w ir config vectorize grad ad_use_stack verbose
        lower_global_access make_thread_local make_block_local ⟨t, []⟩).1 = Except.ok () ↔
      (replay w (compile_to_executable w ir config vectorize grad ad_use_stack verbose
        lower_global_access make_thread_local make_block_local ⟨t, []⟩).2.trace t).isSome =
          true ∧
        ¬ (ir.get_kernel.is_evaluator = true ∧ grad = true)) := by
  refine ⟨?_, ?_, ?_, ?_⟩
  · intro e s1 h
    rw [compile_to_executable_eq_spec]
    unfold orchestrator_spec
    simp only [h]
  · intro f hf hs
    rw [compile_to_executable_eq_exec] at hf ⊢
    obtain ⟨pre, e, h1, h2, h3, h4⟩ := exec_fail_fast w verbose ir _ t f hf hs
    exact ⟨pre, e, h4, h1, h2, h3⟩
  · intro pre e post t1 h hpre he
    rw [compile_to_executable_eq_exec] at h ⊢
    exact exec_failing_call_last w verbose ir _ t t1 pre post e h hpre he
  · rw [compile_to_executable_eq_exec]
    by_cases hc : ir.get_kernel.is_evaluator = true ∧ grad = true
    · obtain ⟨hev, hg⟩ := hc
      subst hg
      simp only [hev, and_self, not_true_eq_false, and_false, iff_false]
      intro h
      rcases hr : exec w verbose ir (pipeline_plan true
        (w.arch_is_cpu config.arch || config.arch == w.cuda) (w.quant_supported config.arch)
        ir.get_config.quant_opt_atomic_demotion config vectorize true ad_use_stack
        lower_global_access make_thread_local make_block_local
        (pipeline_map w ir config vectorize true ad_use_stack verbose make_thread_local
          make_block_local ⟨t, []⟩)) ⟨t, []⟩ with ⟨r, s1⟩
      rw [hr] at h
      simp only at h
      subst h
      obtain ⟨-, -, h3⟩ := exec_ok w verbose ir _ _ s1 () hr
      rw [pipeline_plan_violated] at h3
      exact absurd h3 (by decide)
    · simp only [hc, not_false_eq_true, and_true]
      exact exec_ok_iff w verbose ir _ t (pipeline_plan_holds _ _ _ _ config _ _ _ _ _ _ _ hc)

/-- C8, witness: the example kernel in a world where every call succeeds. -/
theorem fail_fast_amended_witness :
    (compile_to_executable demo_world (demo_ir false) demo_config true true true true true
        true true ⟨0, []⟩).1 = Except.ok () :=
  (fail_fast_amended demo_world (demo_ir false) demo_config true true true true true true
    true 0).2.2.2.2 ⟨by decide, by decide⟩

theorem exec_first_verify (w : World Arch T) (verbose : Bool) (ir : IRNode Arch)
    (label : String) (rest : List Instr) (s : PipeState T) :
    ∃ l, (exec w verbose ir (Instr.print label :: Instr.verify :: rest) s).2.trace =
        s.trace ++ l ∧ (calls l).head? = some Event.verify := by
  rw [exec_cons, exec_cons, Pipe.bind_apply]
  rcases h1 : exec_instr w verbose ir (Instr.print label) s with ⟨r1, s1⟩
  cases r1 with
  | error e =>
    cases verbose <;> simp [exec_instr, make_pass_printer, Pipe.pure_apply] at h1
  | ok u1 =>
    have h0 := (exec_instr_ok w verbose ir _ s s1 u1 h1).1
    have hc : calls (Instr.events verbose ir (Instr.print label)) = [] := by
      cases verbose <;> rfl
    simp only [Pipe.bind_apply]
    rcases h2 : exec_instr w verbose ir Instr.verify s1 with ⟨r2, s2⟩
    cases r2 with
    | error e =>
      have := (exec_instr_error w verbose ir _ s1 s2 e h2).1
      refine ⟨Instr.events verbose ir (Instr.print label) ++ [Event.verify], ?_, ?_⟩
      · simp [this, h0, Instr.events]
      · rw [calls_append, hc]; rfl
    | ok u2 =>
      have h3 := (exec_instr_ok w verbose ir _ s1 s2 u2 h2).1
      obtain ⟨l, hl⟩ := exec_trace_extends w verbose ir rest s2
      refine ⟨Instr.events verbose ir (Instr.print label) ++ [Event.verify] ++ l, ?_, ?_⟩
      · simp only [hl, h3, h0, Instr.events]
        simp
      · rw [calls_append, calls_append, hc]; rfl

theorem stage2_plan_head (q qo : Bool) (config : CompileConfig Arch)
    (lower_global_access make_thread_local make_block_local : Bool) (m : BitStructMap) :
    ∃ rest, stage2_plan q qo config lower_global_access make_thread_local make_block_local m =
      Instr.print "Start offload_to_executable" :: Instr.verify :: rest :=
  ⟨_, rfl⟩

theorem stage1_reference_offload (g : Bool) (config : CompileConfig Arch)
    (vectorize grad ad_use_stack : Bool) :
    Pass.offload ∈ stage1_reference g config vectorize grad ad_use_stack := by
  simp [stage1_reference]

/-- A run of `compile_to_offloads` that returns has invoked `offload`. -/
theorem stage1_ok_offload (w : World Arch T) (ir : IRNode Arch) (config : CompileConfig Arch)
    (verbose vectorize grad ad_use_stack : Bool) (t : T) (s1 : PipeState T)
    (h : compile_to_offloads w ir config verbose vectorize grad ad_use_stack ⟨t, []⟩ =
      (Except.ok (), s1)) : Event.pass Pass.offload ∈ s1.trace := by
  rw [← mem_passes]
  have hs : s1 = (compile_to_offloads w ir config verbose vectorize grad ad_use_stack
    ⟨t, []⟩).2 := by rw [h]
  have hns : no_step_failure (compile_to_offloads w ir config verbose vectorize grad
    ad_use_stack ⟨t, []⟩).1 = true := by rw [h]; rfl
  cases hev : ir.get_kernel.is_evaluator with
  | false =>
    obtain ⟨-, h2⟩ := (stage1_passes_shape w ir config verbose vectorize grad ad_use_stack t
      hev).2 hns
    rw [hs, h2]
    exact stage1_reference_offload _ config vectorize grad ad_use_stack
  | true =>
    rw [compile_to_offloads_eq_exec, hev] at h hns
    obtain ⟨-, -, h3⟩ := exec_ok w verbose ir _ _ s1 () h
    cases grad with
    | true =>
      rw [(stage1_evaluator_grad_calls _ config vectorize ad_use_stack).1] at h3
      exact absurd h3 (by decide)
    | false =>
      obtain ⟨-, h5⟩ := exec_no_step_failure w verbose ir _ t hns
      rw [(stage1_evaluator_calls _ config vectorize ad_use_stack).2, h] at h5
      rw [← passes_calls, h5]
      simp [passes]

/-- C7: `compile_to_executable` is Stage 1 followed by Stage 2 on the tree
that Stage 1 leaves, each flag routed to the parameter of the same name.
Whenever Stage 1 returns (the evaluator early return included), `offload` has
been invoked, the run continues as Stage 2 from the state reached, and Stage 2
makes at least its first oracle call. -/
theorem orchestrator_composition (w : World Arch T) (ir : IRNode Arch)
    (config : CompileConfig Arch)
    (vectorize grad ad_use_stack verbose lower_global_access make_thread_local
      make_block_local : Bool) :
    compile_to_executable w ir config vectorize grad ad_use_stack verbose lower_global_access
        make_thread_local make_block_local =
      orchestrator_spec w ir config vectorize grad ad_use_stack verbose lower_global_access
        make_thread_local make_block_local ∧
    ∀ (t : T) (s1 : PipeState T),
      compile_to_offloads w ir config verbose vectorize grad ad_use_stack ⟨t, []⟩ =
          (Except.ok (), s1) →
        Event.pass Pass.offload ∈ s1.trace ∧
        compile_to_executable w ir config vectorize grad ad_use_stack verbose
            lower_global_access make_thread_local make_block_local ⟨t, []⟩ =
          offload_to_executable w ir config verbose lower_global_access make_thread_local
            make_block_local s1 ∧
        ∃ l, (compile_to_executable w ir config vectorize grad ad_use_stack verbose
            lower_global_access make_thread_local make_block_local ⟨t, []⟩).2.trace =
            s1.trace ++ l ∧ (calls l).head? = some Event.verify := by
  refine ⟨compile_to_executable_eq_spec w ir config _ _ _ _ _ _ _, ?_⟩
  intro t s1 h
  have hrun : compile_to_executable w ir config vectorize grad ad_use_stack verbose
      lower_global_access make_thread_local make_block_local ⟨t, []⟩ =
      offload_to_executable w ir config verbose lower_global_access make_thread_local
        make_block_local s1 := by
    rw [compile_to_executable_eq_spec]
    unfold orchestrator_spec
    simp only [h]
  refine ⟨stage1_ok_offload w ir config verbose vectorize grad ad_use_stack t s1 h, hrun, ?_⟩
  rw [hrun, offload_to_executable_eq_exec]
  obtain ⟨rest, hrest⟩ := stage2_plan_head (w.quant_supported config.arch)
    ir.get_config.quant_opt_atomic_demotion config lower_global_access make_thread_local
    make_block_local (stage2_map w ir config verbose make_thread_local make_block_local s1)
  rw [hrest]
  exact exec_first_verify w verbose ir _ rest s1

/-- C7, witness: the example evaluator kernel, whose Stage 1 returns early. -/
theorem orchestrator_composition_witness :
    compile_to_offloads demo_world (demo_ir true) demo_config false false false false ⟨0, []⟩ =
        (Except.ok (), ⟨4, [Event.pass Pass.lower_ast, Event.pass Pass.type_check,
          Event.verify, Event.pass Pass.demote_operations, Event.pass Pass.offload,
          Event.verify]⟩) ∧
      Event.pass Pass.offload ∈
        [Event.pass Pass.lower_ast, Event.pass Pass.type_check, Event.verify,
          Event.pass Pass.demote_operations, Event.pass Pass.offload, Event.verify] :=
  ⟨rfl, ((orchestrator_composition demo_world (demo_ir true) demo_config false false false
    false false false false).2 0 _ rfl).1⟩



/-! ## C10: the bit-struct storage map -/

theorem mem_nominal_pass (verbose : Bool) (ir : IRNode Arch) (p : Pass) (l : List Instr)
    (h : Event.pass p ∈ nominal verbose ir l) : Instr.pass p ∈ l := by
  induction l with
  | nil => simp [nominal] at h
  | cons i rest ih =>
    simp only [nominal, List.mem_append] at h
    rcases h with h | h
    · cases i <;> cases verbose <;>
        simp [Instr.events, printer_events] at h
      all_goals (subst h; simp)
    · exact List.mem_cons_of_mem _ (ih h)

theorem mem_nominal_gather (verbose : Bool) (ir : IRNode Arch) (m : BitStructMap)
    (l : List Instr)
    (h : Event.gather_uniquely_accessed_bit_structs m ∈ nominal verbose ir l) :
    Instr.gather m ∈ l := by
  induction l with
  | nil => simp [nominal] at h
  | cons i rest ih =>
    simp only [nominal, List.mem_append] at h
    rcases h with h | h
    · cases i <;> cases verbose <;>
        simp [Instr.events, printer_events] at h
      all_goals (subst h; simp)
    · exact List.mem_cons_of_mem _ (ih h)

/-- The calls that a run of a straight line adds to the trace are calls of the
line. -/
theorem exec_trace_sub (w : World Arch T) (verbose : Bool) (ir : IRNode Arch)
    (plan : List Instr) (s : PipeState T) :
    ∃ l, (exec w verbose ir plan s).2.trace = s.trace ++ l ∧
      ∀ e ∈ l, e ∈ nominal verbose ir plan := by
  rcases h : exec w verbose ir plan s with ⟨r, s1⟩
  cases r with
  | ok u => exact ⟨_, (exec_ok w verbose ir plan s s1 u h).1, fun _ he => he⟩
  | error f =>
    obtain ⟨pre, i, post, h1, h2, -⟩ := exec_error w verbose ir plan s s1 f h
    refine ⟨_, h2, ?_⟩
    intro e he
    have : pre ++ i :: post = (pre ++ [i]) ++ post := by simp
    rw [h1, this, nominal_append]
    exact List.mem_append_left _ he

theorem stage2_head_before_gather (config : CompileConfig Arch)
    (make_thread_local make_block_local : Bool) :
    (stage2_head config make_thread_local make_block_local).all
      (fun i => !i.after_gather) = true := by
  simp only [stage2_head, List.all_append, Bool.and_eq_true]
  repeat' constructor
  all_goals first | rfl | (split <;> rfl)

theorem stage2_tail_optimize (q lower_global_access : Bool) (m0 m : BitStructMap)
    (h : Instr.pass (Pass.optimize_bit_struct_stores m) ∈
      stage2_tail q lower_global_access m0) : q = true ∧ m = m0 := by
  cases q <;> cases lower_global_access <;> simp [stage2_tail] at h ⊢
  all_goals exact h

theorem stage2_tail_no_gather (q lower_global_access : Bool) (m0 m : BitStructMap) :
    Instr.gather m ∉ stage2_tail q lower_global_access m0 := by
  cases q <;> cases lower_global_access <;> simp [stage2_tail]


/-- C10, counterexample: a target that supports the quant extension with
`quant_opt_atomic_demotion` off.  `optimize_bit_struct_stores` is invoked,
with the empty map, and `gather_uniquely_accessed_bit_structs` is never
invoked in the run. -/
theorem bit_struct_map_counterexample :
    demo_world.quant_supported demo_config.arch = true ∧
      Event.pass (Pass.optimize_bit_struct_stores []) ∈
        (offload_to_executable demo_world (demo_ir false) demo_config false false false false
          ⟨0, []⟩).2.trace ∧
      ∀ m, Event.gather_uniquely_accessed_bit_structs m ∉
        (offload_to_executable demo_world (demo_ir false) demo_config false false false false
          ⟨0, []⟩).2.trace := by
  refine ⟨rfl, by decide, ?_⟩
  intro m
  have h : (offload_to_executable demo_world (demo_ir false) demo_config false false false
      false ⟨0, []⟩).2.trace =
      [Event.verify, Event.pass Pass.demote_atomics, Event.verify,
        Event.pass Pass.demote_atomics, Event.verify,
        Event.pass Pass.remove_range_assumption, Event.pass Pass.remove_loop_unique,
        Event.verify, Event.pass Pass.demote_operations,
        Event.pass (Pass.full_simplify false),
        Event.pass (Pass.optimize_bit_struct_stores []), Event.pass Pass.type_check,
        Event.verify] := by decide
  rw [h]
  simp

/-- C10, amended: in every run of `offload_to_executable` in which
`optimize_bit_struct_stores` is invoked, the target supports the quant
extension; if `quant_opt_atomic_demotion` is set, the map passed is the result
of the one call of `gather_uniquely_accessed_bit_structs` made earlier in the
run, on the tree reached then and before any `lower_access`; if it is not
set, the analysis is not invoked and the map passed is the empty map. -/
theorem bit_struct_map_amended (w : World Arch T) (ir : IRNode Arch)
    (config : CompileConfig Arch)
    (verbose lower_global_access make_thread_local make_block_local : Bool) (t : T)
    (m : BitStructMap)
    (hm : Event.pass (Pass.optimize_bit_struct_stores m) ∈
      (offload_to_executable w ir config verbose lower_global_access make_thread_local
        make_block_local ⟨t, []⟩).2.trace) :
    w.quant_supported config.arch = true ∧
      (ir.get_config.quant_opt_atomic_demotion = true →
        ∃ pre post t1,
          (offload_to_executable w ir config verbose lower_global_access make_thread_local
            make_block_local ⟨t, []⟩).2.trace =
            pre ++ Event.gather_uniquely_accessed_bit_structs m :: post ∧
          replay w pre t = some t1 ∧ m = w.gather t1 ∧
          (∀ b, Event.pass (Pass.lower_access b) ∉ pre) ∧
          (∀ m1, Event.gather_uniquely_accessed_bit_structs m1 ∉ pre) ∧
          (∀ m1, Event.gather_uniquely_accessed_bit_structs m1 ∉ post) ∧
          Event.pass (Pass.optimize_bit_struct_stores m) ∈ post) ∧
      (ir.get_config.quant_opt_atomic_demotion = false →
        m = [] ∧
          ∀ m1, Event.gather_uniquely_accessed_bit_structs m1 ∉
            (offload_to_executable w ir config verbose lower_global_access make_thread_local
              make_block_local ⟨t, []⟩).2.trace) := by
  rw [offload_to_executable_eq_exec] at hm ⊢
  unfold stage2_plan stage2_map at hm ⊢
  rw [List.append_assoc, exec_append, Pipe.bind_apply] at hm ⊢
  have hhead := stage2_head_before_gather config make_thread_local make_block_local
  have hheadP : ∀ p, Event.pass p ∈ nominal verbose ir
      (stage2_head config make_thread_local make_block_local) →
      (Instr.pass p).after_gather = false := by
    intro p hp
    have := List.all_eq_true.mp hhead _ (mem_nominal_pass verbose ir p _ hp)
    simpa using this
  have hheadG : ∀ m1, Event.gather_uniquely_accessed_bit_structs m1 ∉ nominal verbose ir
      (stage2_head config make_thread_local make_block_local) := by
    intro m1 hg
    have := List.all_eq_true.mp hhead _ (mem_nominal_gather verbose ir m1 _ hg)
    simp [Instr.after_gather] at this
  revert hm
  rcases hh : exec w verbose ir (stage2_head config make_thread_local make_block_local)
    ⟨t, []⟩ with ⟨r, s1⟩
  intro hm
  cases r with
  | error f =>
    exfalso
    simp only at hm
    obtain ⟨l, hl, hsub⟩ := exec_trace_sub w verbose ir
      (stage2_head config make_thread_local make_block_local) ⟨t, []⟩
    rw [hh] at hl
    simp only [List.nil_append] at hl
    rw [hl] at hm
    have := hheadP _ (hsub _ hm)
    simp [Instr.after_gather] at this
  | ok u =>
    obtain ⟨h1, h2, -⟩ := exec_ok w verbose ir _ _ s1 u hh
    simp only [List.nil_append] at h1
    simp only at hm ⊢
    generalize w.quant_supported config.arch = q at hm ⊢
    generalize ir.get_config.quant_opt_atomic_demotion = qo at hm ⊢
    cases hc : (q && qo) with
    | true =>
      simp only [Bool.and_eq_true] at hc
      obtain ⟨hq, hqo⟩ := hc
      subst hq hqo
      simp only [Bool.and_self, if_true, List.singleton_append, exec_cons, Pipe.bind_apply,
        exec_instr] at hm ⊢
      obtain ⟨l, hl, hsub⟩ := exec_trace_sub w verbose ir
        (stage2_tail true lower_global_access (w.gather s1.tree))
        ⟨s1.tree, s1.trace ++ [Event.gather_uniquely_accessed_bit_structs (w.gather s1.tree)]⟩
      rw [hl] at hm ⊢
      simp only [List.mem_append, List.mem_singleton, reduceCtorEq, or_false] at hm
      have hml : Event.pass (Pass.optimize_bit_struct_stores m) ∈ l := by
        rcases hm with hm | hm
        · rw [h1] at hm
          have := hheadP _ hm
          simp [Instr.after_gather] at this
        · exact hm
      have hmeq := (stage2_tail_optimize true lower_global_access _ m
        (mem_nominal_pass verbose ir _ _ (hsub _ hml))).2
      refine ⟨by simp, ?_, ?_⟩
      · intro _
        refine ⟨s1.trace, l, s1.tree, ?_, ?_, hmeq, ?_, ?_, ?_, hml⟩
        · rw [hmeq]; simp
        · rw [h1]; exact h2
        · intro b hb
          rw [h1] at hb
          have := hheadP _ hb
          simp [Instr.after_gather] at this
        · intro m1; rw [h1]; exact hheadG m1
        · intro m1 hg
          exact stage2_tail_no_gather true lower_global_access _ m1
            (mem_nominal_gather verbose ir m1 _ (hsub _ hg))
      · intro hfalse
        simp at hfalse
    | false =>
      rw [hc] at hm
      simp only [Bool.false_eq_true, if_false, List.nil_append] at hm ⊢
      obtain ⟨l, hl, hsub⟩ := exec_trace_sub w verbose ir
        (stage2_tail q lower_global_access []) s1
      rw [hl] at hm ⊢
      have hml : Event.pass (Pass.optimize_bit_struct_stores m) ∈ l := by
        rcases List.mem_append.mp hm with hm | hm
        · rw [h1] at hm
          have := hheadP _ hm
          simp [Instr.after_gather] at this
        · exact hm
      obtain ⟨hq, hmeq⟩ := stage2_tail_optimize q lower_global_access _ m
        (mem_nominal_pass verbose ir _ _ (hsub _ hml))
      subst hq
      simp only [Bool.true_and] at hc
      subst hc
      refine ⟨by simp, ?_, ?_⟩
      · intro hfalse
        simp at hfalse
      · intro _
        refine ⟨hmeq, ?_⟩
        intro m1 hg
        rcases List.mem_append.mp hg with hg | hg
        · rw [h1] at hg; exact hheadG m1 hg
        · exact stage2_tail_no_gather true lower_global_access _ m1
            (mem_nominal_gather verbose ir m1 _ (hsub _ hg))


/-- C10, witness: the example kernel with `quant_opt_atomic_demotion` set; the
analysis runs on the tree reached after two passes. -/
theorem bit_struct_map_amended_witness :
    Event.pass (Pass.optimize_bit_struct_stores [(2, [(0, 0)])]) ∈
        (offload_to_executable demo_world demo_ir_quant demo_config false false false false
          ⟨0, []⟩).2.trace ∧
      ∃ pre post t1,
        (offload_to_executable demo_world demo_ir_quant demo_config false false false false
          ⟨0, []⟩).2.trace =
          pre ++ Event.gather_uniquely_accessed_bit_structs [(2, [(0, 0)])] :: post ∧
        replay demo_world pre 0 = some t1 ∧ [(2, [(0, 0)])] = demo_world.gather t1 ∧
        (∀ b, Event.pass (Pass.lower_access b) ∉ pre) ∧
        (∀ m1, Event.gather_uniquely_accessed_bit_structs m1 ∉ pre) ∧
        (∀ m1, Event.gather_uniquely_accessed_bit_structs m1 ∉ post) ∧
        Event.pass (Pass.optimize_bit_struct_stores [(2, [(0, 0)])]) ∈ post :=
  ⟨by decide,
    (bit_struct_map_amended demo_world demo_ir_quant demo_config false false false false 0
      [(2, [(0, 0)])] (by decide)).2.1 rfl⟩



/-! ## C9: the tracer -/

theorem demo_id_world_observational : Observational demo_id_world same_content where
  refl := fun _ => rfl
  re_id := fun _ _ h => h
  apply := fun _ t1 t2 h => Or.inr ⟨_, _, rfl, rfl, by
    show t1.1 + 1 = t2.1 + 1
    rw [show t1.1 = t2.1 from h]⟩
  verify := fun _ _ _ => rfl
  gather := fun t1 t2 h => by
    show [(t1.1, [(0, 0)])] = [(t2.1, [(0, 0)])]
    rw [show t1.1 = t2.1 from h]

theorem exec_instr_tracer_sim (w : World Arch T) (R : T → T → Prop) (hobs : Observational w R)
    (ir : IRNode Arch) (i : Instr) (s1 s2 : PipeState T) (hR : R s1.tree s2.tree)
    (hc : calls s1.trace = calls s2.trace) :
    (exec_instr w true ir i s1).1 = (exec_instr w false ir i s2).1 ∧
      calls (exec_instr w true ir i s1).2.trace = calls (exec_instr w false ir i s2).2.trace ∧
      R (exec_instr w true ir i s1).2.tree (exec_instr w false ir i s2).2.tree := by
  cases i with
  | pass p =>
    rcases hobs.apply p _ _ hR with ⟨h1, h2⟩ | ⟨u1, u2, h1, h2, hr⟩
    · simp [exec_instr, call, h1, h2, calls_append, hc, hR]
    · simp [exec_instr, call, h1, h2, calls_append, hc, hr]
  | verify =>
    have hv := hobs.verify _ _ hR
    cases hv2 : w.verify s2.tree <;>
      simp [exec_instr, verify, hv, hv2, calls_append, hc, hR]
  | gather m => simp [exec_instr, calls_append, hc, hR]
  | print label =>
    simp only [exec_instr, make_pass_printer, Bool.not_true, Bool.not_false,
      Bool.false_eq_true, if_false, if_true, Pipe.pure_apply, calls_append, hc, true_and]
    exact ⟨by simp [calls, printer_events, Event.is_tracer], hobs.re_id _ _ hR⟩
  | assert b => cases b <;> simp [exec_instr, TI_ASSERT, hc, hR]

/-- A verbose and a silent run of the same line, from trees that differ in
identifiers only, have the same outcome and the same driver calls and end in
trees that differ in identifiers only. -/
theorem exec_tracer_sim (w : World Arch T) (R : T → T → Prop) (hobs : Observational w R)
    (ir : IRNode Arch) (plan : List Instr) (s1 s2 : PipeState T) (hR : R s1.tree s2.tree)
    (hc : calls s1.trace = calls s2.trace) :
    (exec w true ir plan s1).1 = (exec w false ir plan s2).1 ∧
      calls (exec w true ir plan s1).2.trace = calls (exec w false ir plan s2).2.trace ∧
      R (exec w true ir plan s1).2.tree (exec w false ir plan s2).2.tree := by
  induction plan generalizing s1 s2 with
  | nil => exact ⟨rfl, hc, hR⟩
  | cons i rest ih =>
    obtain ⟨h1, h2, h3⟩ := exec_instr_tracer_sim w R hobs ir i s1 s2 hR hc
    rw [exec_cons, exec_cons, Pipe.bind_apply, Pipe.bind_apply]
    rcases ha : exec_instr w true ir i s1 with ⟨ra, sa⟩
    rcases hb : exec_instr w false ir i s2 with ⟨rb, sb⟩
    rw [ha, hb] at h1 h2 h3
    simp only at h1 h2 h3
    subst h1
    cases ra with
    | error e => exact ⟨rfl, h2, h3⟩
    | ok u => exact ih sa sb h3 h2

theorem nominal_silent (ir : IRNode Arch) (plan : List Instr) :
    ∀ e ∈ nominal false ir plan, e.is_tracer = false := by
  induction plan with
  | nil => simp [nominal]
  | cons i rest ih =>
    intro e he
    simp only [nominal, List.mem_append] at he
    rcases he with he | he
    · cases i <;> simp [Instr.events] at he <;> subst he <;> rfl
    · exact ih e he

/-- A silent run of a straight line makes no tracer call. -/
theorem exec_silent (w : World Arch T) (ir : IRNode Arch) (plan : List Instr) (t : T) :
    ∀ e ∈ (exec w false ir plan ⟨t, []⟩).2.trace, e.is_tracer = false := by
  obtain ⟨l, hl, hsub⟩ := exec_trace_sub w false ir plan ⟨t, []⟩
  intro e he
  rw [hl] at he
  exact nominal_silent ir plan e (hsub e (by simpa using he))


theorem stage1_tracer_sim (w : World Arch T) (R : T → T → Prop) (hobs : Observational w R)
    (ir : IRNode Arch) (config : CompileConfig Arch) (vectorize grad ad_use_stack : Bool)
    (s1 s2 : PipeState T) (hR : R s1.tree s2.tree) (hc : calls s1.trace = calls s2.trace) :
    (compile_to_offloads w ir config true vectorize grad ad_use_stack s1).1 =
        (compile_to_offloads w ir config false vectorize grad ad_use_stack s2).1 ∧
      calls (compile_to_offloads w ir config true vectorize grad ad_use_stack s1).2.trace =
        calls (compile_to_offloads w ir config false vectorize grad ad_use_stack s2).2.trace ∧
      R (compile_to_offloads w ir config true vectorize grad ad_use_stack s1).2.tree
        (compile_to_offloads w ir config false vectorize grad ad_use_stack s2).2.tree := by
  rw [compile_to_offloads_eq_exec, compile_to_offloads_eq_exec]
  exact exec_tracer_sim w R hobs ir _ s1 s2 hR hc

theorem stage2_tracer_sim (w : World Arch T) (R : T → T → Prop) (hobs : Observational w R)
    (ir : IRNode Arch) (config : CompileConfig Arch)
    (lower_global_access make_thread_local make_block_local : Bool)
    (s1 s2 : PipeState T) (hR : R s1.tree s2.tree) (hc : calls s1.trace = calls s2.trace) :
    (offload_to_executable w ir config true lower_global_access make_thread_local
          make_block_local s1).1 =
        (offload_to_executable w ir config false lower_global_access make_thread_local
          make_block_local s2).1 ∧
      calls (offload_to_executable w ir config true lower_global_access make_thread_local
          make_block_local s1).2.trace =
        calls (offload_to_executable w ir config false lower_global_access make_thread_local
          make_block_local s2).2.trace ∧
      R (offload_to_executable w ir config true lower_global_access make_thread_local
          make_block_local s1).2.tree
        (offload_to_executable w ir config false lower_global_access make_thread_local
          make_block_local s2).2.tree := by
  rw [offload_to_executable_eq_exec, offload_to_executable_eq_exec]
  have hm : stage2_map w ir config true make_thread_local make_block_local s1 =
      stage2_map w ir config false make_thread_local make_block_local s2 :=
    hobs.gather _ _ (exec_tracer_sim w R hobs ir _ s1 s2 hR hc).2.2
  rw [hm]
  exact exec_tracer_sim w R hobs ir _ s1 s2 hR hc

theorem pipeline_tracer_sim (w : World Arch T) (R : T → T → Prop) (hobs : Observational w R)
    (ir : IRNode Arch) (config : CompileConfig Arch)
    (vectorize grad ad_use_stack lower_global_access make_thread_local make_block_local : Bool)
    (s1 s2 : PipeState T) (hR : R s1.tree s2.tree) (hc : calls s1.trace = calls s2.trace) :
    (compile_to_executable w ir config vectorize grad ad_use_stack true lower_global_access
          make_thread_local make_block_local s1).1 =
        (compile_to_executable w ir config vectorize grad ad_use_stack false
          lower_global_access make_thread_local make_block_local s2).1 ∧
      calls (compile_to_executable w ir config vectorize grad ad_use_stack true
          lower_global_access make_thread_local make_block_local s1).2.trace =
        calls (compile_to_executable w ir config vectorize grad ad_use_stack false
          lower_global_access make_thread_local make_block_local s2).2.trace ∧
      R (compile_to_executable w ir config vectorize grad ad_use_stack true
          lower_global_access make_thread_local make_block_local s1).2.tree
        (compile_to_executable w ir config vectorize grad ad_use_stack false
          lower_global_access make_thread_local make_block_local s2).2.tree := by
  rw [compile_to_executable_eq_spec, compile_to_executable_eq_spec]
  unfold orchestrator_spec
  obtain ⟨h1, h2, h3⟩ := stage1_tracer_sim w R hobs ir config vectorize grad ad_use_stack
    s1 s2 hR hc
  rcases ha : compile_to_offloads w ir config true vectorize grad ad_use_stack s1 with ⟨ra, sa⟩
  rcases hb : compile_to_offloads w ir config false vectorize grad ad_use_stack s2 with
    ⟨rb, sb⟩
  rw [ha, hb] at h1 h2 h3
  simp only at h1 h2 h3
  subst h1
  cases ra with
  | error e => exact ⟨rfl, h2, h3⟩
  | ok u =>
    exact stage2_tracer_sim w R hobs ir config lower_global_access make_thread_local
      make_block_local sa sb h3 h2

/-- C9: for every tree, configuration and flag values, a verbose and a silent
run of `compile_to_offloads`, of `offload_to_executable` and of
`compile_to_executable` end with the same outcome and make the same pass,
oracle and analysis calls, with the same arguments, in the same order,
whenever renumbering of debug identifiers is invisible to the collaborators;
and a silent run makes no tracer call at all (no `re_id`, no `print`, no
logging, no flush). -/
theorem tracer_non_interference (w : World Arch T) (ir : IRNode Arch)
    (config : CompileConfig Arch)
    (vectorize grad ad_use_stack lower_global_access make_thread_local make_block_local : Bool)
    (t : T) :
    (∀ R : T → T → Prop, Observational w R →
      ((compile_to_offloads w ir config true vectorize grad ad_use_stack ⟨t, []⟩).1 =
          (compile_to_offloads w ir config false vectorize grad ad_use_stack ⟨t, []⟩).1 ∧
        calls (compile_to_offloads w ir config true vectorize grad ad_use_stack
            ⟨t, []⟩).2.trace =
          calls (compile_to_offloads w ir config false vectorize grad ad_use_stack
            ⟨t, []⟩).2.trace) ∧
      ((offload_to_executable w ir config true lower_global_access make_thread_local
            make_block_local ⟨t, []⟩).1 =
          (offload_to_executable w ir config false lower_global_access make_thread_local
            make_block_local ⟨t, []⟩).1 ∧
        calls (offload_to_executable w ir config true lower_global_access make_thread_local
            make_block_local ⟨t, []⟩).2.trace =
          calls (offload_to_executable w ir config false lower_global_access
            make_thread_local make_block_local ⟨t, []⟩).2.trace) ∧
      ((compile_to_executable w ir config vectorize grad ad_use_stack true
            lower_global_access make_thread_local make_block_local ⟨t, []⟩).1 =
          (compile_to_executable w ir config vectorize grad ad_use_stack false
            lower_global_access make_thread_local make_block_local ⟨t, []⟩).1 ∧
        calls (compile_to_executable w ir config vectorize grad ad_use_stack true
            lower_global_access make_thread_local make_block_local ⟨t, []⟩).2.trace =
          calls (compile_to_executable w ir config vectorize grad ad_use_stack false
            lower_global_access make_thread_local make_block_local ⟨t, []⟩).2.trace)) ∧
    (∀ e ∈ (compile_to_offloads w ir config false vectorize grad ad_use_stack
        ⟨t, []⟩).2.trace, e.is_tracer = false) ∧
    (∀ e ∈ (offload_to_executable w ir config false lower_global_access make_thread_local
        make_block_local ⟨t, []⟩).2.trace, e.is_tracer = false) ∧
    (∀ e ∈ (compile_to_executable w ir config vectorize grad ad_use_stack false
        lower_global_access make_thread_local make_block_local ⟨t, []⟩).2.trace,
      e.is_tracer = false) := by
  refine ⟨?_, ?_, ?_, ?_⟩
  · intro R hobs
    have h1 := stage1_tracer_sim w R hobs ir config vectorize grad ad_use_stack
      ⟨t, []⟩ ⟨t, []⟩ (hobs.refl t) rfl
    have h2 := stage2_tracer_sim w R hobs ir config lower_global_access make_thread_local
      make_block_local ⟨t, []⟩ ⟨t, []⟩ (hobs.refl t) rfl
    have h3 := pipeline_tracer_sim w R hobs ir config vectorize grad ad_use_stack
      lower_global_access make_thread_local make_block_local ⟨t, []⟩ ⟨t, []⟩ (hobs.refl t) rfl
    exact ⟨⟨h1.1, h1.2.1⟩, ⟨h2.1, h2.2.1⟩, ⟨h3.1, h3.2.1⟩⟩
  · rw [compile_to_offloads_eq_exec]
    exact exec_silent w ir _ t
  · rw [offload_to_executable_eq_exec]
    exact exec_silent w ir _ t
  · rw [compile_to_executable_eq_exec]
    exact exec_silent w ir _ t

/-- C9, witness: a world in which `re_id` does change the tree; the verbose
and the silent run make the same driver calls and end in different trees. -/
theorem tracer_non_interference_witness :
    Observational demo_id_world same_content ∧
      calls (compile_to_executable demo_id_world (demo_ir false) demo_config true true true
          true true true true ⟨(0, 0), []⟩).2.trace =
        calls (compile_to_executable demo_id_world (demo_ir false) demo_config true true true
          false true true true ⟨(0, 0), []⟩).2.trace ∧
      (compile_to_executable demo_id_world (demo_ir false) demo_config true true true
          true true true true ⟨(0, 0), []⟩).2.tree ≠
        (compile_to_executable demo_id_world (demo_ir false) demo_config true true true
          false true true true ⟨(0, 0), []⟩).2.tree :=
  ⟨demo_id_world_observational,
    ((tracer_non_interference demo_id_world (demo_ir false) demo_config true true true true
      true true (0, 0)).1 same_content demo_id_world_observational).2.2.2,
    by decide⟩

/-! ## C1: the checkpoints of the two stages -/


theorem stage1_plan_calls (g : Bool) (config : CompileConfig Arch)
    (vectorize grad ad_use_stack : Bool) :
    plan_calls (stage1_plan false g config vectorize grad ad_use_stack) =
      stage1_call_reference false g config vectorize grad ad_use_stack := by
  have hcons : ∀ (i : Instr) (rest : List Instr),
      plan_calls (i :: rest) = i.calls ++ plan_calls rest := fun _ _ => rfl
  have hnil : plan_calls [] = [] := rfl
  simp only [stage1_plan, stage1_call_reference, plan_calls_append, apply_ite plan_calls,
    hcons, hnil, Instr.calls, List.nil_append, List.cons_append, List.append_nil,
    List.append_assoc, Bool.false_eq_true, if_false]

/-- The driver calls of the body of `compile_to_offloads` up to its first
violated assertion. -/
theorem stage1_plan_reach_calls (ev g : Bool) (config : CompileConfig Arch)
    (vectorize grad ad_use_stack : Bool) :
    plan_calls ((stage1_plan ev g config vectorize grad ad_use_stack).takeWhile Instr.holds) =
      stage1_call_reference ev g config vectorize grad ad_use_stack := by
  cases ev with
  | false =>
    rw [takeWhile_holds_all _ (stage1_general_calls g config vectorize grad ad_use_stack).1]
    exact stage1_plan_calls g config vectorize grad ad_use_stack
  | true =>
    cases grad with
    | true =>
      rw [(stage1_evaluator_grad_calls g config vectorize ad_use_stack).2]
      rfl
    | false =>
      rw [(stage1_evaluator_calls g config vectorize ad_use_stack).2]
      rfl

/-- The driver calls of a run of a straight line are an initial segment of the
calls of the line up to its first violated assertion, and all of them when no
pass and no oracle call fails. -/
theorem exec_calls_reach_shape (w : World Arch T) (verbose : Bool) (ir : IRNode Arch)
    (plan : List Instr) (t : T) (ref : List Event)
    (href : plan_calls (plan.takeWhile Instr.holds) = ref) :
    (∃ post, ref = calls (exec w verbose ir plan ⟨t, []⟩).2.trace ++ post) ∧
      (no_step_failure (exec w verbose ir plan ⟨t, []⟩).1 = true →
        calls (exec w verbose ir plan ⟨t, []⟩).2.trace = ref) := by
  constructor
  · obtain ⟨post, hp⟩ := exec_calls_reach w verbose ir plan t
    rw [href] at hp
    exact ⟨post, hp⟩
  · intro h
    rw [(exec_no_step_failure w verbose ir plan t h).2, href]


/-- C1, amended: the driver closes each group of passes, not each pass, with
`analysis::verify`.  In every run of `compile_to_offloads` the pass and
oracle calls are, in order, those of `stage1_call_reference`:
`[reverse_segments] lower_ast type_check VERIFY`, then for an evaluator
`demote_operations offload VERIFY`, otherwise
`[loop_vectorize VERIFY vector_split VERIFY] [bit_loop_vectorize type_check
VERIFY] full_simplify VERIFY [demote_atomics full_simplify auto_diff
full_simplify VERIFY] [check_out_of_bound VERIFY] flag_access VERIFY
full_simplify VERIFY offload VERIFY [cfg_optimization VERIFY] flag_access
full_simplify VERIFY`.  In every run of `offload_to_executable` they are those
of `stage2_reference`: `VERIFY [detect_read_only] demote_atomics VERIFY
[demote_dense_struct_fors type_check VERIFY] [make_thread_local]
[make_block_local] demote_atomics VERIFY [gather] remove_range_assumption
remove_loop_unique VERIFY [lower_access VERIFY die VERIFY flag_access VERIFY]
demote_operations full_simplify [optimize_bit_struct_stores] type_check
VERIFY`.  The calls of a run are an initial segment of the sequence, and the
whole of it when no pass and no oracle call fails.  Hence at most four passes
are invoked between one `analysis::verify` and the next, and unless the run is
aborted by a failing pass its last driver call is `analysis::verify`. -/
theorem checkpoint_protocol_amended (w : World Arch T) (ir : IRNode Arch)
    (config : CompileConfig Arch)
    (verbose vectorize grad ad_use_stack lower_global_access make_thread_local
      make_block_local : Bool) (t : T) :
    ((∃ post,
        stage1_call_reference ir.get_kernel.is_evaluator
            (w.arch_is_cpu config.arch || config.arch == w.cuda) config vectorize grad
            ad_use_stack =
          calls (compile_to_offloads w ir config verbose vectorize grad ad_use_stack
            ⟨t, []⟩).2.trace ++ post) ∧
      (no_step_failure
          (compile_to_offloads w ir config verbose vectorize grad ad_use_stack ⟨t, []⟩).1 =
            true →
        calls (compile_to_offloads w ir config verbose vectorize grad ad_use_stack
            ⟨t, []⟩).2.trace =
          stage1_call_reference ir.get_kernel.is_evaluator
            (w.arch_is_cpu config.arch || config.arch == w.cuda) config vectorize grad
            ad_use_stack)) ∧
    ((∃ post,
        stage2_reference (w.quant_supported config.arch)
            ir.get_config.quant_opt_atomic_demotion config lower_global_access
            make_thread_local make_block_local
            (stage2_map w ir config verbose make_thread_local make_block_local ⟨t, []⟩) =
          calls (offload_to_executable w ir config verbose lower_global_access
            make_thread_local make_block_local ⟨t, []⟩).2.trace ++ post) ∧
      (no_step_failure (offload_to_executable w ir config verbose lower_global_access
          make_thread_local make_block_local ⟨t, []⟩).1 = true →
        calls (offload_to_executable w ir config verbose lower_global_access
            make_thread_local make_block_local ⟨t, []⟩).2.trace =
          stage2_reference (w.quant_supported config.arch)
            ir.get_config.quant_opt_atomic_demotion config lower_global_access
            make_thread_local make_block_local
            (stage2_map w ir config verbose make_thread_local make_block_local ⟨t, []⟩))) ∧
    Checkpointed_within 4
        (compile_to_offloads w ir config verbose vectorize grad ad_use_stack ⟨t, []⟩).2.trace ∧
      Checkpointed_within 4
        (offload_to_executable w ir config verbose lower_global_access make_thread_local
          make_block_local ⟨t, []⟩).2.trace ∧
      ((∀ p, (compile_to_offloads w ir config verbose vectorize grad ad_use_stack ⟨t, []⟩).1 ≠
            Except.error (Failure.pass_failed p)) →
        (calls (compile_to_offloads w ir config verbose vectorize grad ad_use_stack
          ⟨t, []⟩).2.trace).getLast? = some Event.verify) ∧
      ((∀ p, (offload_to_executable w ir config verbose lower_global_access make_thread_local
            make_block_local ⟨t, []⟩).1 ≠ Except.error (Failure.pass_failed p)) →
        (calls (offload_to_executable w ir config verbose lower_global_access make_thread_local
          make_block_local ⟨t, []⟩).2.trace).getLast? = some Event.verify) := by
  rw [compile_to_offloads_eq_exec, offload_to_executable_eq_exec]
  refine ⟨exec_calls_reach_shape w verbose ir _ t _ (stage1_plan_reach_calls _ _ _ _ _ _),
    exec_calls_reach_shape w verbose ir _ t _ ?_,
    exec_checkpointed w verbose ir _ t 4 (stage1_budget _ _ _ _ _ _),
    exec_checkpointed w verbose ir _ t 4 (stage2_budget _ _ _ _ _ _ _),
    exec_last_call w verbose ir _ t (stage1_last_call _ _ _ _ _ _),
    exec_last_call w verbose ir _ t (stage2_last_call _ _ _ _ _ _ _)⟩
  rw [takeWhile_holds_all _ (stage2_plan_holds _ _ _ _ _ _ _)]
  exact stage2_plan_calls _ _ _ _ _ _ _

/-- C1, witness: a run of the example world with `vectorize` and `grad` set.
No call fails, the calls are the whole sequence with a checkpoint after each
group of passes, and the last one is the oracle. -/
theorem checkpoint_protocol_amended_witness :
    no_step_failure (compile_to_offloads demo_world (demo_ir false) demo_config false true true
        true ⟨0, []⟩).1 = true ∧
      calls (compile_to_offloads demo_world (demo_ir false) demo_config false true true true
        ⟨0, []⟩).2.trace =
        [Event.pass Pass.reverse_segments, Event.pass Pass.lower_ast,
          Event.pass Pass.type_check, Event.verify,
          Event.pass Pass.loop_vectorize, Event.verify,
          Event.pass (Pass.vector_split 4 false), Event.verify,
          Event.pass Pass.bit_loop_vectorize, Event.pass Pass.type_check, Event.verify,
          Event.pass (Pass.full_simplify false), Event.verify,
          Event.pass Pass.demote_atomics, Event.pass (Pass.full_simplify false),
          Event.pass (Pass.auto_diff true), Event.pass (Pass.full_simplify false),
          Event.verify,
          Event.pass Pass.flag_access, Event.verify,
          Event.pass (Pass.full_simplify false), Event.verify,
          Event.pass Pass.offload, Event.verify,
          Event.pass Pass.flag_access, Event.pass (Pass.full_simplify false),
          Event.verify] ∧
      (∀ p, (compile_to_offloads demo_world (demo_ir false) demo_config false true true true
        ⟨0, []⟩).1 ≠ Except.error (Failure.pass_failed p)) ∧
      (calls (compile_to_offloads demo_world (demo_ir false) demo_config false true true true
        ⟨0, []⟩).2.trace).getLast? = some Event.verify :=
  ⟨rfl,
    (checkpoint_protocol_amended demo_world (demo_ir false) demo_config false true true
      true false false false 0).1.2 rfl,
    fun _ h => (nomatch h),
    (checkpoint_protocol_amended demo_world (demo_ir false) demo_config false true true
      true false false false 0).2.2.2.2.1 (fun _ h => (nomatch h))⟩

end Laws

end Taichi
